import Mathlib

/-! Spidey web server: request parsing, path resolution and dispatch.

A shallow embedding of `WebServer/src/request.c`, `utils.c`, `handler.c`,
`single.c` and `forking.c`.

* C strings are lists of bytes (`List Char`) without their terminating NUL.
* A `char buffer[BUFSIZ]` is a list of bytes in which NUL bytes are stored
  explicitly; a `char *` into it is an index (`Nat`), `NULL` is `none`.
* The socket stream `r->file` is the list of bytes still to be read, plus the
  list of bytes written so far.
* Operations whose behaviour the C standard leaves undefined (passing `NULL`
  to `strdup`, indexing before the start of a string, ...) end the run with a
  `Fault`.
-/

namespace Spidey

/-! ## C strings and buffers -/

/-- A C string, without its terminating NUL byte. -/
abbrev CStr := List Char

/-- The NUL byte. -/
def NUL : Char := Char.ofNat 0

/-- The size of a stdio buffer, `BUFSIZ` of `<stdio.h>` (glibc: 8192). -/
def BUFSIZ : Nat := 8192

/-- Modelled from the spec: the macro `WHITESPACE` of `spidey.h`, which is not
among the sources. The spec tokenizes "on whitespace"; the set taken here is the
one `skip_whitespace` of `utils.c` tests for: space, tab, line feed. -/
def WHITESPACE : CStr := [' ', '\t', '\n']

/-- Modelled from the spec: the macro `streq` of `spidey.h`, which is not among
the sources. `handler.c` uses it as the truth value of "the two strings are
equal" (`if(streq(temp->name, "Host"))`), so it is the C value of
`strcmp(a, b) == 0`: 1 when equal, 0 otherwise. -/
def streq (a b : CStr) : Int := if a = b then 1 else 0

/-- Ways in which a run leaves defined behaviour. -/
inductive Fault where
  /-- A null pointer was passed where a string or stream is required. -/
  | nullDeref
  /-- A byte outside the string was read or written. -/
  | outOfBounds
  /-- An uninitialised variable was read. -/
  | uninitialised
  /-- `free` was called on a pointer that no allocation returned. -/
  | invalidFree
  deriving DecidableEq, Repr

/-- The byte at address `p` of a buffer (NUL past what was stored). -/
def peek (buf : List Char) (p : Nat) : Char := (buf.drop p).headD NUL

/-- The C string that starts at address `p` of a buffer. -/
def cstr (buf : List Char) (p : Nat) : CStr := (buf.drop p).takeWhile (fun c => c != NUL)

/-- C `strlen` of the string at address `p`. -/
def strlen (buf : List Char) (p : Nat) : Nat := (cstr buf p).length

/-- C `strspn`: length of the initial segment made of bytes of `accept`. -/
def strspn (buf : List Char) (p : Nat) (accept : CStr) : Nat :=
  ((buf.drop p).takeWhile (fun c => c != NUL && accept.contains c)).length

/-- C `strcspn`: length of the initial segment with no byte of `reject`. -/
def strcspn (buf : List Char) (p : Nat) (reject : CStr) : Nat :=
  ((buf.drop p).takeWhile (fun c => c != NUL && !reject.contains c)).length

/-- C `strtok`, with its hidden state made explicit. `save` is the pointer kept
between calls, `str` the first argument (`none` for `NULL`). Returns the token
(`none` for `NULL`), the buffer after the call and the new saved pointer. -/
def strtok (buf : List Char) (save : Nat) (str : Option Nat) (delim : CStr) :
    Option Nat × List Char × Nat :=
  let s := str.getD save
  if peek buf s = NUL then (none, buf, s)
  else
    let s := s + strspn buf s delim
    if peek buf s = NUL then (none, buf, s)
    else
      let e := s + strcspn buf s delim
      if peek buf e = NUL then (some s, buf, e)
      else (some s, buf.set e NUL, e + 1)

/-- The bytes `fgets` takes from a stream when at most `n` may be stored: it
stops after a line feed, at the end of the stream, or after `n` bytes. -/
def fgetsAux : Nat → List Char → List Char × List Char
  | 0, s => ([], s)
  | _ + 1, [] => ([], [])
  | n + 1, c :: s =>
    if c = '\n' then ([c], s)
    else ((fgetsAux n s).1.cons c, (fgetsAux n s).2)

/-- C `fgets(buffer, size, stream)`: `none` (NULL) when the stream is at its end,
otherwise the bytes stored in the buffer (a NUL follows them) and the rest of
the stream. -/
def fgets (size : Nat) (stream : List Char) : Option (List Char × List Char) :=
  match stream with
  | [] => none
  | _ :: _ => some (fgetsAux (size - 1) stream)

/-- C `snprintf(dst, size, "%s%s", a, b)`: the bytes stored (without the NUL) and
the return value, the length of the untruncated result. -/
def snprintf_ss (size : Nat) (a b : CStr) : CStr × Int :=
  ((a ++ b).take (size - 1), ((a ++ b).length : Int))

/-! ## utils.c -/

/-- `determine_request_path` of `utils.c`. `realpath` is the C library routine;
its result goes to the local `buffer`, which the function never reads. `path` is
a local array, so `path == NULL` is false. -/
def determine_request_path (realpath : CStr → Option CStr) (RootPath uri : CStr) :
    Option CStr :=
  let (path, n) := snprintf_ss BUFSIZ RootPath uri
  if n < 0 then none
  else
    let _buffer := realpath path
    if streq path RootPath < 0 then none
    else some path

/-- `skip_whitespace` of `utils.c`: the address of the first byte of the string
at `s` that is not a space, line feed or tab (`s` itself when there is none). -/
def skip_whitespace (buf : List Char) (s : Nat) : Nat :=
  match (cstr buf s).findIdx? (fun c => c != ' ' && c != '\n' && c != '\t') with
  | some i => s + i
  | none => s

/-- `skip_nonwhitespace` of `utils.c`: the address of the first space, line feed
or tab of the string at `s` (`s` itself when there is none). -/
def skip_nonwhitespace (buf : List Char) (s : Nat) : Nat :=
  match (cstr buf s).findIdx? (fun c => c == ' ' || c == '\n' || c == '\t') with
  | some i => s + i
  | none => s

/-! ## request.c -/

/-- A node of the header list: `name` and `value` (`next` is the list order). -/
structure Header where
  name : CStr
  value : CStr
  deriving DecidableEq, Repr

/-- The `Request` structure of `spidey.h`, as far as the sources use it. `file`
is the input still unread on the socket stream, `out` what was written to it.
String fields are `none` while they are NULL. -/
structure Request where
  file : List Char
  out : List Char
  host : CStr
  port : CStr
  method : Option CStr
  uri : Option CStr
  query : Option CStr
  path : Option CStr
  headers : List Header
  deriving DecidableEq, Repr

/-- The request `accept_request` hands out: zeroed by `calloc`, with the peer's
address and the socket stream. -/
def accepted (host port : CStr) (input : List Char) : Request :=
  { file := input, out := [], host := host, port := port, method := none, uri := none,
    query := none, path := none, headers := [] }

/-- `parse_request_method` of `request.c`. Returns the C return value and the
request as the function leaves it. -/
def parse_request_method (r : Request) : Except Fault (Int × Request) :=
  match fgets BUFSIZ r.file with
  | none => .ok (-1, r)
  | some (line, rest) =>
    let r := { r with file := rest }
    let buffer := line ++ [NUL]
    -- method = strtok(buffer, WHITESPACE); r->method = strdup(method);
    match strtok buffer 0 (some 0) WHITESPACE with
    | (none, _, _) => .error Fault.nullDeref
    | (some method, buffer, save) =>
      let r := { r with method := some (cstr buffer method) }
      -- uri = strtok(NULL, WHITESPACE);
      match strtok buffer save none WHITESPACE with
      | (uri, buffer, save) =>
        -- query = strtok(uri, "?"); query = strtok(NULL, WHITESPACE);
        match strtok buffer save uri ['?'] with
        | (_, buffer, save) =>
          match strtok buffer save none WHITESPACE with
          | (some query, buffer, save) =>
            -- uri = strtok(uri, "?"); r->query = strdup(query);
            match strtok buffer save uri ['?'] with
            | (uri, buffer, _) =>
              let r := { r with query := some (cstr buffer query) }
              match uri with
              | some uri => .ok (0, { r with uri := some (cstr buffer uri) })
              | none => .ok (-1, r)
          | (none, buffer, _) =>
            -- query = " "; r->query = strdup(query);
            let r := { r with query := some [' '] }
            match uri with
            | some uri => .ok (0, { r with uri := some (cstr buffer uri) })
            | none => .ok (-1, r)

/-- Modelled from the spec: the macro `chomp` of `spidey.h`, which is not among
the sources. It removes the line feed `fgets` keeps at the end of a line: it
overwrites the last byte of the string with NUL. On an empty string it would
write before the buffer. -/
def chomp (buf : List Char) : Except Fault (List Char) :=
  if strlen buf 0 = 0 then .error Fault.outOfBounds
  else .ok (buf.set (strlen buf 0 - 1) NUL)

/-- One pass through the body of the loop of `parse_request_headers`, from
`chomp` to the two `strdup`s, on the buffer `fgets` filled: the new header, or
`none` for `goto fail`. -/
def parse_header_line (buffer : List Char) : Except Fault (Option Header) :=
  match chomp buffer with
  | .error f => .error f
  | .ok buffer =>
    -- name = strtok(buffer, ":");
    match strtok buffer 0 (some 0) [':'] with
    | (none, _, _) => .ok none
    | (some name, buffer, save) =>
      -- value = strtok(NULL, WHITESPACE);
      match strtok buffer save none WHITESPACE with
      | (none, _, _) => .ok none
      | (some value, buffer, _) =>
        let value := skip_whitespace buffer value
        .ok (some { name := cstr buffer name, value := cstr buffer value })

/-- The `while` loop of `parse_request_headers`. `tail` tells whether the local
`tail` has been assigned. The result is the request after the loop, with `true`
when the loop was left through `goto fail`. Every turn takes at least one byte
from the stream, so `fuel` above the length of the input is never used up. -/
def parse_request_headers_loop : Nat → Bool → Request → Except Fault (Bool × Request)
  | 0, _, r => .ok (false, r)
  | fuel + 1, tail, r =>
    match fgets BUFSIZ r.file with
    | none => .ok (false, r)
    | some (line, rest) =>
      let r := { r with file := rest }
      let buffer := line ++ [NUL]
      if strlen buffer 0 > 2 then
        match parse_header_line buffer with
        | .error f => .error f
        | .ok none => .ok (true, r)
        | .ok (some curr) =>
          -- if(!(r->headers)) r->headers = curr; else tail->next = curr;
          if r.headers = [] then
            parse_request_headers_loop fuel true { r with headers := [curr] }
          else if tail then
            parse_request_headers_loop fuel true { r with headers := r.headers ++ [curr] }
          else .error Fault.uninitialised
      else .ok (false, r)

/-- `parse_request_headers` of `request.c`. -/
def parse_request_headers (r : Request) : Except Fault (Int × Request) :=
  match parse_request_headers_loop (r.file.length + 1) false r with
  | .error f => .error f
  | .ok (true, r) => .ok (-1, r)
  | .ok (false, r) => if r.headers = [] then .ok (-1, r) else .ok (0, r)

/-- `parse_request` of `request.c`, for a non-NULL request. -/
def parse_request (r : Request) : Except Fault (Int × Request) :=
  match parse_request_method r with
  | .error f => .error f
  | .ok (status00, r) =>
    if status00 < 0 then .ok (-1, r)
    else
      match parse_request_headers r with
      | .error f => .error f
      | .ok (status01, r) => if status01 < 0 then .ok (-1, r) else .ok (0, r)

/-! ## The world outside the process -/

/-- Modelled from the spec: the `Status` enumeration of `spidey.h`, which is not
among the sources: "one of a small closed enumeration {OK, BadRequest, NotFound,
InternalServerError}", in the order of the `StatusStrings` table of `utils.c`. -/
inductive Status where
  | HTTP_STATUS_OK
  | HTTP_STATUS_BAD_REQUEST
  | HTTP_STATUS_NOT_FOUND
  | HTTP_STATUS_INTERNAL_SERVER_ERROR
  deriving DecidableEq, Repr

/-- The integer value of a status. -/
def Status.toNat : Status → Nat
  | .HTTP_STATUS_OK => 0
  | .HTTP_STATUS_BAD_REQUEST => 1
  | .HTTP_STATUS_NOT_FOUND => 2
  | .HTTP_STATUS_INTERNAL_SERVER_ERROR => 3

/-- The process environment: names with their values. -/
abbrev Env := List (CStr × CStr)

/-- C `getenv`. -/
def getenv (env : Env) (name : CStr) : Option CStr :=
  (env.find? (fun kv => kv.1 == name)).map (fun kv => kv.2)

/-- C `setenv(name, value, true)`: the value replaces an earlier one. -/
def setenv : Env → CStr → CStr → Env
  | [], name, value => [(name, value)]
  | kv :: env, name, value =>
    if kv.1 = name then (name, value) :: env else kv :: setenv env name value

/-- What the server sees of its configuration and of the operating system. -/
structure World where
  /-- The global `RootPath`. -/
  RootPath : CStr
  /-- The global `Port`. -/
  Port : CStr
  /-- The global `DefaultMimeType`. -/
  DefaultMimeType : CStr
  /-- The contents of the file `MimeTypesPath`, `none` when it cannot be opened. -/
  mimetypes : Option (List Char)
  /-- The library routine `realpath(3)`. -/
  realpath : CStr → Option CStr
  /-- The call `lstat`: `none` when it fails, else whether the entry is a directory. -/
  lstat : CStr → Option Bool
  /-- Whether `access(path, X_OK) == 0`. -/
  access_X_OK : CStr → Bool
  /-- Whether `access(path, R_OK) == 0`. -/
  access_R_OK : CStr → Bool
  /-- The names of the children of a directory, `none` when it cannot be scanned. -/
  children : CStr → Option (List CStr)
  /-- The contents of a file opened for reading, `none` when `fopen` fails. -/
  fopen : CStr → Option (List Char)
  /-- The standard output of a command run by `popen` in an environment, `none`
  when `popen` fails. -/
  popen : CStr → Env → Option (List Char)

/-- C `strcmp` on bytes, as an ordering. -/
def strcmp : CStr → CStr → Ordering
  | [], [] => .eq
  | [], _ :: _ => .lt
  | _ :: _, [] => .gt
  | a :: as, b :: bs =>
    if a.toNat < b.toNat then .lt
    else if b.toNat < a.toNat then .gt
    else strcmp as bs

/-- The order `alphasort` sorts by (`strcoll`, which is `strcmp` in the C locale the
process starts in). -/
def alphasort (a b : CStr) : Prop := strcmp a b ≠ .gt

instance : DecidableRel alphasort := fun a b => by
  unfold alphasort; infer_instance

/-- C `scandir(path, &entries, NULL, alphasort)`: every entry of the directory,
`.` and `..` included (no filter is given), sorted; `none` when it returns -1. -/
def scandir (w : World) (path : CStr) : Option (List CStr) :=
  (w.children path).map (fun cs => (['.'] :: ['.', '.'] :: cs).insertionSort alphasort)

/-- C `fprintf`/`fputs` to the socket stream of the request. -/
def Request.write (r : Request) (text : List Char) : Request :=
  { r with out := r.out ++ text }

/-! ## utils.c, continued -/

/-- `http_status_string` of `utils.c`. -/
def http_status_string (status : Status) : CStr :=
  match status.toNat with
  | 0 => "200 OK".toList
  | 1 => "400 Bad Request".toList
  | 2 => "404 Not Found".toList
  | _ => "500 Internal Server Error".toList

/-- C `strrchr(path, '.') + 1` as `determine_mimetype` uses it: the text after the
last `.`; `none` stands for the pointer `NULL + 1` obtained when there is no `.`,
which is not NULL and must not be read. -/
def extension (path : CStr) : Option CStr :=
  if '.' ∈ path then some ((path.reverse.takeWhile (fun c => c != '.')).reverse) else none

/-- The inner `while` of `determine_mimetype`: the tokens that follow on the line
are compared with the extension. Returns whether one matched, with the buffer and
the saved pointer of `strtok`. -/
def mimetype_scan : Nat → List Char → Nat → CStr → Bool × List Char × Nat
  | 0, buffer, save, _ => (false, buffer, save)
  | fuel + 1, buffer, save, ext =>
    match strtok buffer save none WHITESPACE with
    | (none, buffer, save) => (false, buffer, save)
    | (some searchExt, buffer, save) =>
      if streq (cstr buffer searchExt) ext ≠ 0 then (true, buffer, save)
      else mimetype_scan fuel buffer save ext

/-- The outer `while` of `determine_mimetype` over the lines of the table. The
state is the local `buffer` (`none` while nothing was stored in it); the result is
the buffer at the label `breaker`. -/
def mimetype_loop : Nat → List Char → Option (List Char) → Option CStr →
    Except Fault (Option (List Char))
  | 0, _, buffer, _ => .ok buffer
  | fuel + 1, stream, buffer, ext =>
    match fgets BUFSIZ stream with
    | none => .ok buffer
    | some (line, rest) =>
      match chomp (line ++ [NUL]) with
      | .error f => .error f
      | .ok buffer =>
        if peek buffer 0 = NUL ∨ peek buffer 0 = '#' then
          mimetype_loop fuel rest (some buffer) ext
        else
          match strtok buffer 0
              (some (skip_whitespace buffer (skip_nonwhitespace buffer 0))) WHITESPACE with
          | (none, _, _) => .error Fault.nullDeref
          | (some searchExt, buffer, save) =>
            match ext with
            | none => .error Fault.outOfBounds
            | some ext =>
              if streq (cstr buffer searchExt) ext ≠ 0 then .ok (some buffer)
              else
                match mimetype_scan (buffer.length + 1) buffer save ext with
                | (true, buffer, _) => .ok (some buffer)
                | (false, buffer, _) => mimetype_loop fuel rest (some buffer) ext

/-- `determine_mimetype` of `utils.c`: `none` for NULL. The test `!ext` never
holds, as `ext` is one past the result of `strrchr`. -/
def determine_mimetype (w : World) (path : CStr) : Except Fault (Option CStr) :=
  match w.mimetypes with
  | none => .ok none
  | some table =>
    match mimetype_loop (table.length + 1) table none (extension path) with
    | .error f => .error f
    | .ok none => .error Fault.uninitialised
    | .ok (some buffer) =>
      match strtok buffer 0 (some 0) WHITESPACE with
      | (none, _, _) => .ok none
      | (some ret, buffer, _) => .ok (some (cstr buffer ret))

/-! ## handler.c -/

/-- `handle_error` of `handler.c`. -/
def handle_error (r : Request) (status : Status) : Status × Request :=
  let status_string := http_status_string status
  let r := r.write ("HTTP/1.0 ".toList ++ status_string ++ "\n".toList)
  let r := r.write "Content-Type: text/html\n".toList
  let r := r.write "\r\n".toList
  let terminator :=
    "https://www.thewrap.com/wp-content/uploads/2017/09/terminator-timeline.jpg".toList
  let r := r.write ("<h1>".toList ++ status_string ++ "</h1>\n".toList)
  let r := r.write "<h1>Hasta la vista, baby</h2>\n".toList
  let r := r.write "<center>\n".toList
  let r := r.write ("<img src=\"".toList ++ terminator ++ "\">\n".toList)
  let r := r.write "</center>\r\n".toList
  (status, r)

/-- The list item `handle_browse_request` prints for one entry: the two `fprintf`
formats, chosen by `strcmp(&r->uri[strlen(r->uri) - 1], "/")`. -/
def browse_item (uri d_name : CStr) : Except Fault (List Char) :=
  match uri.getLast? with
  | none => .error Fault.outOfBounds
  | some c =>
    if c ≠ '/' then
      .ok ("<li><a href=\"".toList ++ uri ++ "/".toList ++ d_name ++ "\">".toList ++ d_name
        ++ "</a></li>\n".toList)
    else
      .ok ("<li><a href=\"".toList ++ uri ++ d_name ++ "\">".toList ++ d_name
        ++ "</a></li>\n".toList)

/-- The `for` loop of `handle_browse_request` over the entries it is given. -/
def browse_items (uri : CStr) : List CStr → Request → Except Fault Request
  | [], r => .ok r
  | e :: es, r =>
    match browse_item uri e with
    | .error f => .error f
    | .ok item => browse_items uri es (r.write item)

/-- `handle_browse_request` of `handler.c`. The loop starts at index 1. -/
def handle_browse_request (w : World) (r : Request) : Except Fault (Status × Request) :=
  match r.path, r.uri with
  | some path, some uri =>
    match scandir w path with
    | none => .ok (Status.HTTP_STATUS_BAD_REQUEST, r)
    | some entries =>
      let r := r.write "HTTP/1.0 200 OK\n".toList
      let r := r.write "Content-Type: text/html\n".toList
      let r := r.write "\r\n".toList
      let r := r.write "<ul type=\"square\">".toList
      match browse_items uri (entries.drop 1) r with
      | .error f => .error f
      | .ok r => .ok (Status.HTTP_STATUS_OK, r.write "</ul>".toList)
  | _, _ => .error Fault.nullDeref

/-- `handle_file_request` of `handler.c`. Writes to the socket are taken to
succeed. When `fopen` fails the code jumps to `fail`, where it calls `fclose` on
the null stream. When `determine_mimetype` returns NULL, `mimetype` is the global
`DefaultMimeType`, and after the file is sent the code calls `free` on it. -/
def handle_file_request (w : World) (r : Request) : Except Fault (Status × Request) :=
  match r.path with
  | none => .error Fault.nullDeref
  | some path =>
    match w.fopen path with
    | none => .error Fault.nullDeref
    | some contents =>
      match determine_mimetype w path with
      | .error f => .error f
      | .ok none => .error Fault.invalidFree
      | .ok (some mimetype) =>
        let r := r.write "HTTP/1.0 200 OK\r\n".toList
        let r := r.write ("Content-Type: ".toList ++ mimetype ++ "\r\n".toList)
        let r := r.write "\r\n".toList
        .ok (Status.HTTP_STATUS_OK, r.write contents)

/-- The export of the request headers in `handle_cgi_request`. -/
def export_headers : List Header → Env → Env
  | [], env => env
  | temp :: rest, env =>
    if streq temp.name "Host".toList ≠ 0 then
      export_headers rest (setenv env "HTTP_HOST".toList temp.value)
    else if streq temp.name "Connection".toList ≠ 0 then
      export_headers rest (setenv env "HTTP_CONNECTION".toList temp.value)
    else if streq temp.name "Accept".toList ≠ 0 then
      export_headers rest (setenv env "HTTP_ACCEPT".toList temp.value)
    else if streq temp.name "Accept-Encoding".toList ≠ 0 then
      export_headers rest (setenv env "HTTP_ACCEPT_ENCODING".toList temp.value)
    else if streq temp.name "Accept-Language".toList ≠ 0 then
      export_headers rest (setenv env "HTTP_ACCEPT_LANGUAGE".toList temp.value)
    else if streq temp.name "User-Agent".toList ≠ 0 then
      export_headers rest (setenv env "HTTP_USER_AGENT".toList temp.value)
    else export_headers rest env

/-- The export step of `handle_cgi_request`: the eight `setenv` calls on request
fields, then the headers. A NULL field given to `setenv` is a fault. -/
def cgi_export (w : World) (env : Env) (r : Request) : Except Fault Env :=
  match r.query, r.method, r.uri, r.path with
  | some query, some method, some uri, some path =>
    let env := setenv env "DOCUMENT_ROOT".toList w.RootPath
    let env := setenv env "QUERY_STRING".toList query
    let env := setenv env "REMOTE_ADDR".toList r.host
    let env := setenv env "REMOTE_PORT".toList r.port
    let env := setenv env "REQUEST_METHOD".toList method
    let env := setenv env "REQUEST_URI".toList uri
    let env := setenv env "SCRIPT_FILENAME".toList path
    let env := setenv env "SERVER_PORT".toList w.Port
    .ok (export_headers r.headers env)
  | _, _, _, _ => .error Fault.nullDeref

/-- The copy loop of `handle_cgi_request`: `fgets` from the pipe, `fputs` to the
socket (which writes the bytes up to the first NUL of the buffer). -/
def cgi_copy : Nat → List Char → Request → Request
  | 0, _, r => r
  | fuel + 1, pfs, r =>
    match fgets BUFSIZ pfs with
    | none => r
    | some (line, rest) => cgi_copy fuel rest (r.write (cstr (line ++ [NUL]) 0))

/-- `handle_cgi_request` of `handler.c`; the environment is part of the state. -/
def handle_cgi_request (w : World) (env : Env) (r : Request) :
    Except Fault (Status × Request × Env) :=
  match cgi_export w env r with
  | .error f => .error f
  | .ok env =>
    match r.path with
    | none => .error Fault.nullDeref
    | some path =>
      match w.popen path env with
      | none => .ok (Status.HTTP_STATUS_NOT_FOUND, r, env)
      | some pfs => .ok (Status.HTTP_STATUS_OK, cgi_copy (pfs.length + 1) pfs r, env)

/-- `handle_request` of `handler.c`; the environment is part of the state. -/
def handle_request (w : World) (env : Env) (r : Request) :
    Except Fault (Status × Request × Env) :=
  match parse_request r with
  | .error f => .error f
  | .ok (status, r) =>
    if status < 0 then
      .ok ((handle_error r Status.HTTP_STATUS_BAD_REQUEST).1,
        (handle_error r Status.HTTP_STATUS_BAD_REQUEST).2, env)
    else
      match r.uri with
      | none => .error Fault.nullDeref
      | some uri =>
        let r := { r with path := determine_request_path w.realpath w.RootPath uri }
        match r.path with
        | none =>
          .ok ((handle_error r Status.HTTP_STATUS_NOT_FOUND).1,
            (handle_error r Status.HTTP_STATUS_NOT_FOUND).2, env)
        | some path =>
          match w.lstat path with
          | none =>
            .ok ((handle_error r Status.HTTP_STATUS_NOT_FOUND).1,
              (handle_error r Status.HTTP_STATUS_NOT_FOUND).2, env)
          | some isdir =>
            if isdir then
              match handle_browse_request w r with
              | .error f => .error f
              | .ok (result, r) => .ok (result, r, env)
            else if w.access_X_OK path then handle_cgi_request w env r
            else if w.access_R_OK path then
              match handle_file_request w r with
              | .error f => .error f
              | .ok (result, r) => .ok (result, r, env)
            else .ok (Status.HTTP_STATUS_BAD_REQUEST, r, env)

/-! ## Canonical form of a path (the notion the specification uses) -/

/-- Split a path at `/`. -/
def components (p : CStr) : List CStr := p.splitOn '/'

/-- Resolve `.` and `..` over a stack of components (innermost first). -/
def resolveDots : List CStr → List CStr → List CStr
  | stack, [] => stack
  | stack, c :: cs =>
    if c = [] ∨ c = ['.'] then resolveDots stack cs
    else if c = ['.', '.'] then resolveDots stack.tail cs
    else resolveDots (c :: stack) cs

/-- The canonical form of an absolute path, `.` and `..` resolved. -/
def canonical (p : CStr) : CStr :=
  match (resolveDots [] (components p)).reverse with
  | [] => ['/']
  | cs => (cs.map (fun c => '/' :: c)).flatten

/-- Holds when `p` is `root` itself or lies below it. -/
def withinRoot (root p : CStr) : Prop :=
  p = root ∨ (root ++ ['/']) <+: p

instance (root p : CStr) : Decidable (withinRoot root p) := by
  unfold withinRoot; infer_instance

/-! ## Notions the statements use -/

/-- A token as `strtok` with `WHITESPACE` sees it: not empty, no NUL, no byte of
`WHITESPACE`. -/
def IsToken (t : CStr) : Prop := t ≠ [] ∧ ∀ c ∈ t, c ≠ NUL ∧ c ∉ WHITESPACE

instance (t : CStr) : Decidable (IsToken t) := by
  unfold IsToken; infer_instance

/-- The bytes of a request line up to its line feed: method, URI and the rest,
each after one space. -/
def line_of (M U T : List Char) : List Char := M ++ ' ' :: (U ++ ' ' :: T)

/-- The names `export_headers` may set. -/
def forwarded_names : List CStr :=
  ["HTTP_HOST".toList, "HTTP_CONNECTION".toList, "HTTP_ACCEPT".toList,
    "HTTP_ACCEPT_ENCODING".toList, "HTTP_ACCEPT_LANGUAGE".toList, "HTTP_USER_AGENT".toList]

/-- A line as `fgets` delivers it whole: it ends with its only line feed and fits
the buffer. -/
def IsLine (l : List Char) : Prop :=
  l.getLast? = some '\n' ∧ '\n' ∉ l.dropLast ∧ l.length < BUFSIZ

instance (l : List Char) : Decidable (IsLine l) := by
  unfold IsLine; infer_instance

/-- The buffers the header loop works on: what `fgets` stores, turn after turn,
until the stream ends or a string of at most two bytes is read. -/
def header_lines : Nat → List Char → List (List Char)
  | 0, _ => []
  | fuel + 1, stream =>
    match fgets BUFSIZ stream with
    | none => []
    | some (line, rest) =>
      if strlen (line ++ [NUL]) 0 > 2 then (line ++ [NUL]) :: header_lines fuel rest else []

/-- Header reading ends before a header is collected: the stream is at its end,
or the first line read is blank (at most two bytes). -/
def ends_at_once (stream : List Char) : Prop :=
  match fgets BUFSIZ stream with
  | none => True
  | some (line, _) => strlen (line ++ [NUL]) 0 ≤ 2

instance (stream : List Char) : Decidable (ends_at_once stream) := by
  unfold ends_at_once
  split <;> infer_instance

/-- The hyperlink target of an entry: the URI and the name, with a `/` between
them unless the URI ends in one. -/
def href (uri d_name : CStr) : CStr :=
  if uri.getLast? = some '/' then uri ++ d_name else uri ++ '/' :: d_name

/-- The list item of an entry. -/
def list_item (uri d_name : CStr) : List Char :=
  "<li><a href=\"".toList ++ href uri d_name ++ "\">".toList ++ d_name
    ++ "</a></li>\n".toList

/-- The number of places of a text where `pat` starts. -/
def count_occurrences (pat : List Char) : List Char → Nat
  | [] => 0
  | c :: s => (if pat.isPrefixOf (c :: s) then 1 else 0) + count_occurrences pat s

/-- The request line `METHOD URI HTTP/<v>` followed by its line terminator. -/
def request_line (METHOD URI v eol : CStr) : List Char :=
  METHOD ++ ' ' :: (URI ++ ' ' :: ("HTTP/".toList ++ v ++ eol))

/-- The two line terminators: CR LF and a bare LF. -/
def IsEol (eol : CStr) : Prop := eol = ['\r', '\n'] ∨ eol = ['\n']

instance (eol : CStr) : Decidable (IsEol eol) := by
  unfold IsEol; infer_instance

/-- A sample world: the root `/srv/www` holds the directory `docs` (with the files
`b.html` and `a.txt`), the script `cgi.sh` and the page `index.html`; every entry
is readable and executable by the server but `index.html`, which is only
readable. -/
def sample_world : World where
  RootPath := "/srv/www".toList
  Port := "9898".toList
  DefaultMimeType := "text/plain".toList
  mimetypes := some "text/html html htm\n".toList
  realpath := fun p => some p
  lstat := fun p =>
    if p = "/srv/www/docs/".toList then some true
    else if p = "/srv/www/cgi.sh".toList ∨ p = "/srv/www/index.html".toList then some false
    else none
  access_X_OK := fun p => p ≠ "/srv/www/index.html".toList
  access_R_OK := fun _ => true
  children := fun p =>
    if p = "/srv/www/docs/".toList then some ["b.html".toList, "a.txt".toList] else none
  fopen := fun _ => some "<p>hello</p>\n".toList
  popen := fun _ _ => some "Content-Type: text/plain\n\nhi\n".toList

/-- A request as it stands after parsing: method, URI, query and headers set. -/
def parsed (method uri query : CStr) (headers : List Header) : Request :=
  { file := [], out := [], host := [], port := [], method := some method, uri := some uri,
    query := some query, path := none, headers := headers }

/-- The eight variables `handle_cgi_request` sets from the fields of the request. -/
def request_names : List CStr :=
  ["DOCUMENT_ROOT".toList, "QUERY_STRING".toList, "REMOTE_ADDR".toList, "REMOTE_PORT".toList,
    "REQUEST_METHOD".toList, "REQUEST_URI".toList, "SCRIPT_FILENAME".toList,
    "SERVER_PORT".toList]

/-- The allow-list: the header names that are forwarded, each with its variable. -/
def allow_list : List (CStr × CStr) :=
  [("Host".toList, "HTTP_HOST".toList), ("Connection".toList, "HTTP_CONNECTION".toList),
    ("Accept".toList, "HTTP_ACCEPT".toList),
    ("Accept-Encoding".toList, "HTTP_ACCEPT_ENCODING".toList),
    ("Accept-Language".toList, "HTTP_ACCEPT_LANGUAGE".toList),
    ("User-Agent".toList, "HTTP_USER_AGENT".toList)]

/-- The variable a header name is forwarded to, if any. -/
def forwarded (name : CStr) : Option CStr :=
  (allow_list.find? (fun p => p.1 == name)).map (fun p => p.2)

/-- The value of the last header of a list that has the given name. -/
def last_header : List Header → CStr → Option CStr
  | [], _ => none
  | h :: rest, name =>
    match last_header rest name with
    | some v => some v
    | none => if h.name = name then some h.value else none

/-- The sample world with a table of two rules, `text/html` for `html` and `htm`
and `image/png` for `png`, after a comment line and a blank line. -/
def two_rule_world : World :=
  { sample_world with
    mimetypes := some "# MIME types\n\ntext/html\t\thtml htm\nimage/png png\n".toList }

/-! ## single.c and forking.c -/

/-- `EXIT_SUCCESS` of `<stdlib.h>`. -/
def EXIT_SUCCESS : Int := 0

/-- `EXIT_FAILURE` of `<stdlib.h>`. -/
def EXIT_FAILURE : Int := 1

/-- What a server process does to the requests it accepted, in the order it does
it. A request is named by the value `accept_request` returned. -/
inductive Event where
  /-- The call `handle_request(r)`. -/
  | handle (r : Request)
  /-- The call `free_request(r)` on a request that is not NULL. -/
  | free (r : Request)
  deriving DecidableEq, Repr

/-- Where a server process stands after a finite sequence of accept outcomes. -/
inductive Stop where
  /-- The loop is back in `accept_request`. -/
  | accepting
  /-- The server function returned this value. -/
  | returned (code : Int)
  /-- The process called `exit` with this value. -/
  | exited (code : Int)
  /-- The process left defined behaviour. -/
  | fault (f : Fault)
  deriving DecidableEq, Repr

/-- What the operating system gives one call of `accept_request`. -/
inductive Accept where
  /-- The call `accept` returns a negative value. -/
  | accept_fails
  /-- The call `accept` succeeds and `getnameinfo` returns a negative value. -/
  | getnameinfo_fails
  /-- The two succeed and `fdopen` returns NULL. -/
  | fdopen_fails (host port : CStr)
  /-- All three succeed: the peer's address and the bytes the peer sends. -/
  | connection (host port : CStr) (input : List Char)
  deriving DecidableEq, Repr

/-- `free_request` of `request.c`. `stream` tells whether `r->file` is an open
stream; it is NULL otherwise, as `calloc` left it. Nothing is released for a NULL
request. For any other request the first call is `fclose(r->file)`: on the null
stream it is a fault, on an open stream it closes the connection, and the request
is released. -/
def free_request (stream : Bool) : Option Request → Except Fault (List Event)
  | none => .ok []
  | some r => if stream then .ok [Event.free r] else .error Fault.nullDeref

/-- `accept_request` of `request.c`: the new request, or NULL; `calloc` is taken
to succeed. When `accept` or `getnameinfo` fails the code jumps to `fail`, where
`free_request` is called on the request, whose stream is not open yet; when
`fdopen` fails the code calls `fclose` on the NULL it returned. -/
def accept_request : Accept → Except Fault (Option Request)
  | Accept.accept_fails =>
    match free_request false (some (accepted [] [] [])) with
    | .error f => .error f
    | .ok _ => .ok none
  | Accept.getnameinfo_fails =>
    match free_request false (some (accepted [] [] [])) with
    | .error f => .error f
    | .ok _ => .ok none
  | Accept.fdopen_fails _ _ => .error Fault.nullDeref
  | Accept.connection host port input => .ok (some (accepted host port input))

/-- `single_server` of `single.c`, run on what the operating system gives the
successive calls of `accept_request`. The environment is that of the one process,
which `handle_request` changes. -/
def single_server (w : World) : Env → List Accept → List Event × Stop
  | _, [] => ([], Stop.accepting)
  | env, a :: rest =>
    match accept_request a with
    | .error f => ([], Stop.fault f)
    | .ok none =>
      match free_request false none with
      | .error f => ([], Stop.fault f)
      | .ok events => (events, Stop.returned EXIT_FAILURE)
    | .ok (some r) =>
      match handle_request w env r with
      | .error f => ([Event.handle r], Stop.fault f)
      | .ok (_, _, env) =>
        match free_request true (some r) with
        | .error f => ([Event.handle r], Stop.fault f)
        | .ok events =>
          (Event.handle r :: events ++ (single_server w env rest).1,
            (single_server w env rest).2)

/-- `forking_server` of `forking.c`, run by one process on what the operating
system gives the successive calls of `accept_request`, each with the value `fork`
returns in this process if it is called: negative when it fails, 0 in the child,
the child's pid in the parent. -/
def forking_server (w : World) (env : Env) : List (Accept × Int) → List Event × Stop
  | [] => ([], Stop.accepting)
  | (a, pid) :: rest =>
    match accept_request a with
    | .error f => ([], Stop.fault f)
    | .ok none => forking_server w env rest
    | .ok (some client_stream) =>
      if pid < 0 then
        match free_request true (some client_stream) with
        | .error f => ([], Stop.fault f)
        | .ok events => (events ++ (forking_server w env rest).1, (forking_server w env rest).2)
      else if pid = 0 then
        match handle_request w env client_stream with
        | .error f => ([Event.handle client_stream], Stop.fault f)
        | .ok _ =>
          match free_request true (some client_stream) with
          | .error f => ([Event.handle client_stream], Stop.fault f)
          | .ok events => (Event.handle client_stream :: events, Stop.exited EXIT_SUCCESS)
      else
        match free_request true (some client_stream) with
        | .error f => ([], Stop.fault f)
        | .ok events => (events ++ (forking_server w env rest).1, (forking_server w env rest).2)

/-! ## Facts about the C library model -/

theorem peek_append (pre l : List Char) : peek (pre ++ l) pre.length = l.headD NUL := by
  simp [peek]

theorem peek_append_add (pre l : List Char) (k : Nat) :
    peek (pre ++ l) (pre.length + k) = peek l k := by
  simp [peek, List.drop_append]

theorem cstr_append_add (pre l : List Char) (k : Nat) :
    cstr (pre ++ l) (pre.length + k) = cstr l k := by
  simp [cstr, List.drop_append]

theorem cstr_zero_token (tok post : List Char) (h : ∀ c ∈ tok, c ≠ NUL) :
    cstr (tok ++ NUL :: post) 0 = tok := by
  unfold cstr
  rw [List.drop_zero, List.takeWhile_append_of_pos (by simpa using h)]
  simp

theorem cstr_token (pre tok post : List Char) (h : ∀ c ∈ tok, c ≠ NUL) :
    cstr (pre ++ (tok ++ NUL :: post)) pre.length = tok := by
  have := cstr_append_add pre (tok ++ NUL :: post) 0
  rw [Nat.add_zero] at this
  rw [this, cstr_zero_token tok post h]

theorem set_append_length (l post : List Char) (x y : Char) :
    (l ++ x :: post).set l.length y = l ++ y :: post := by
  induction l with
  | nil => rfl
  | cons a l ih => simp [ih]

theorem strspn_token (pre tok post : List Char) (delim : CStr) (hne : tok ≠ [])
    (htok : ∀ c ∈ tok, c ≠ NUL ∧ c ∉ delim) :
    strspn (pre ++ (tok ++ post)) pre.length delim = 0 := by
  cases tok with
  | nil => exact absurd rfl hne
  | cons a tok =>
    have ha := htok a (List.mem_cons_self _ _)
    simp [strspn, ha.2]

theorem strcspn_token (pre tok post : List Char) (x : Char) (delim : CStr)
    (htok : ∀ c ∈ tok, c ≠ NUL ∧ c ∉ delim) (hx : x = NUL ∨ x ∈ delim) :
    strcspn (pre ++ (tok ++ x :: post)) pre.length delim = tok.length := by
  unfold strcspn
  rw [List.drop_left, List.takeWhile_append_of_pos]
  · rcases hx with hx | hx <;> simp [hx]
  · intro c hc
    have := htok c hc
    simp [this.1, this.2]

/-- `strtok` on a token that a delimiter follows: the delimiter is overwritten
with NUL and the saved pointer goes past it. -/
theorem strtok_delim (pre tok post : List Char) (d : Char) (delim : CStr) (sv : Nat)
    (str : Option Nat) (hs : str.getD sv = pre.length) (hne : tok ≠ [])
    (htok : ∀ c ∈ tok, c ≠ NUL ∧ c ∉ delim) (hd : d ∈ delim) (hd0 : d ≠ NUL) :
    strtok (pre ++ (tok ++ d :: post)) sv str delim
      = (some pre.length, pre ++ (tok ++ NUL :: post), pre.length + tok.length + 1) := by
  have h0 : peek (pre ++ (tok ++ d :: post)) pre.length ≠ NUL := by
    rw [peek_append]
    cases tok with
    | nil => exact absurd rfl hne
    | cons a tok => simpa using (htok a (List.mem_cons_self _ _)).1
  have h1 : peek (pre ++ (tok ++ d :: post)) (pre.length + tok.length) = d := by
    rw [peek_append_add]
    have := peek_append tok (d :: post)
    simpa using this
  have h2 : (pre ++ (tok ++ d :: post)).set (pre.length + tok.length) NUL
      = pre ++ (tok ++ NUL :: post) := by
    have := set_append_length (pre ++ tok) post d NUL
    rw [List.length_append, List.append_assoc, List.append_assoc] at this
    exact this
  unfold strtok
  simp only [hs, strspn_token pre tok (d :: post) delim hne htok, Nat.add_zero, h0, if_false,
    strcspn_token pre tok post d delim htok (Or.inr hd), h1, hd0, h2]

/-- `strtok` on a token that ends the string: nothing is written and the saved
pointer stays on the NUL. -/
theorem strtok_last (pre tok post : List Char) (delim : CStr) (sv : Nat)
    (str : Option Nat) (hs : str.getD sv = pre.length) (hne : tok ≠ [])
    (htok : ∀ c ∈ tok, c ≠ NUL ∧ c ∉ delim) :
    strtok (pre ++ (tok ++ NUL :: post)) sv str delim
      = (some pre.length, pre ++ (tok ++ NUL :: post), pre.length + tok.length) := by
  have h0 : peek (pre ++ (tok ++ NUL :: post)) pre.length ≠ NUL := by
    rw [peek_append]
    cases tok with
    | nil => exact absurd rfl hne
    | cons a tok => simpa using (htok a (List.mem_cons_self _ _)).1
  have h1 : peek (pre ++ (tok ++ NUL :: post)) (pre.length + tok.length) = NUL := by
    rw [peek_append_add]
    have := peek_append tok (NUL :: post)
    simpa using this
  unfold strtok
  simp only [hs, strspn_token pre tok (NUL :: post) delim hne htok, Nat.add_zero, h0, if_false,
    strcspn_token pre tok post NUL delim htok (Or.inl rfl), h1, if_true]

/-- `strtok` at the end of the string returns NULL. -/
theorem strtok_end (pre post : List Char) (delim : CStr) (sv : Nat) (str : Option Nat)
    (hs : str.getD sv = pre.length) :
    strtok (pre ++ NUL :: post) sv str delim = (none, pre ++ NUL :: post, pre.length) := by
  have h0 : peek (pre ++ NUL :: post) pre.length = NUL := by
    rw [peek_append]; rfl
  unfold strtok
  simp only [hs, h0, if_true]

theorem fgetsAux_line (l rest : List Char) (n : Nat) (hl : ∀ c ∈ l, c ≠ '\n')
    (hn : l.length < n) :
    fgetsAux n (l ++ '\n' :: rest) = (l ++ ['\n'], rest) := by
  induction l generalizing n with
  | nil =>
    cases n with
    | zero => exact absurd hn (Nat.lt_irrefl _)
    | succ n => simp [fgetsAux]
  | cons a l ih =>
    cases n with
    | zero => exact absurd hn (Nat.not_lt_zero _)
    | succ n =>
      have ha : a ≠ '\n' := hl a (List.mem_cons_self _ _)
      have hl2 : ∀ c ∈ l, c ≠ '\n' := fun c hc => hl c (List.mem_cons_of_mem _ hc)
      have hn2 : l.length < n := by simpa using hn
      simp [fgetsAux, ha, ih n hl2 hn2]

/-- `fgets` on a stream that starts with a whole line shorter than the buffer
stores that line, its line feed included, and leaves the rest. -/
theorem fgets_line (l rest : List Char) (hl : ∀ c ∈ l, c ≠ '\n')
    (hn : l.length + 1 < BUFSIZ) :
    fgets BUFSIZ (l ++ '\n' :: rest) = some (l ++ ['\n'], rest) := by
  have h := fgetsAux_line l rest (BUFSIZ - 1) hl (by omega)
  cases l with
  | nil => exact congrArg some h
  | cons a l => simpa [fgets] using h

theorem fgetsAux_append (n : Nat) :
    ∀ s : List Char, (fgetsAux n s).1 ++ (fgetsAux n s).2 = s := by
  induction n with
  | zero => intro s; rfl
  | succ n ih =>
    intro s
    cases s with
    | nil => rfl
    | cons c s =>
      unfold fgetsAux
      by_cases hc : c = '\n'
      · simp [hc]
      · simp [hc, ih s]

/-- Every successful `fgets` takes at least one byte from the stream. -/
theorem fgets_shorter (s l rest : List Char) (h : fgets BUFSIZ s = some (l, rest)) :
    rest.length < s.length := by
  cases s with
  | nil => simp [fgets] at h
  | cons c s =>
    simp only [fgets, Option.some.injEq] at h
    have happ := fgetsAux_append (BUFSIZ - 1) (c :: s)
    rw [h] at happ
    have hl : l ≠ [] := by
      have h1 : (fgetsAux (BUFSIZ - 1) (c :: s)).1 ≠ [] := by
        have : BUFSIZ - 1 = (BUFSIZ - 2) + 1 := by decide
        rw [this]
        unfold fgetsAux
        by_cases hc : c = '\n' <;> simp [hc]
      rw [h] at h1
      exact h1
    have hlen : l.length + rest.length = (c :: s).length := by
      rw [← List.length_append]
      exact congrArg List.length happ
    have := List.length_pos.2 hl
    omega

/-! ## Facts about `determine_request_path` -/

/-- `determine_request_path` never returns NULL: it returns the root followed by
the URI, cut to the size of the buffer, whatever `realpath` finds. -/
theorem determine_request_path_eq (realpath : CStr → Option CStr) (RootPath uri : CStr) :
    determine_request_path realpath RootPath uri
      = some ((RootPath ++ uri).take (BUFSIZ - 1)) := by
  unfold determine_request_path snprintf_ss
  have h1 : ¬ (((RootPath ++ uri).length : Int) < 0) := by omega
  have h2 : ¬ (streq ((RootPath ++ uri).take (BUFSIZ - 1)) RootPath < 0) := by
    unfold streq
    split <;> decide
  simp only [h1, h2, if_false]

/-! ## Facts about `parse_request_method` -/

theorem space_mem_WHITESPACE : ' ' ∈ WHITESPACE := by decide

theorem space_ne_NUL : ' ' ≠ NUL := by decide

theorem question_ne_NUL : '?' ≠ NUL := by decide

theorem strspn_run (pre Z tl : List Char) (delim : CStr)
    (hZ : ∀ c ∈ Z, c ∈ delim ∧ c ≠ NUL) (htl : tl.headD NUL = NUL ∨ tl.headD NUL ∉ delim) :
    strspn (pre ++ (Z ++ tl)) pre.length delim = Z.length := by
  unfold strspn
  rw [List.drop_left, List.takeWhile_append_of_pos]
  · cases tl with
    | nil => simp
    | cons x xs =>
      rcases htl with h | h
      · have hx : x = NUL := h
        simp [hx]
      · have hx : x ∉ delim := h
        simp [hx]
  · intro c hc
    have := hZ c hc
    simp [this.1, this.2]

/-- Leading delimiters are skipped: `strtok` gives what it gives when started
behind them. -/
theorem strtok_skip (pre Z tl : List Char) (delim : CStr) (sv : Nat) (str : Option Nat)
    (hs : str.getD sv = pre.length) (hZ : ∀ c ∈ Z, c ∈ delim ∧ c ≠ NUL)
    (htl : tl.headD NUL = NUL ∨ tl.headD NUL ∉ delim) :
    strtok (pre ++ (Z ++ tl)) sv str delim
      = strtok (pre ++ (Z ++ tl)) sv (some (pre.length + Z.length)) delim := by
  cases Z with
  | nil =>
    unfold strtok
    simp only [hs, List.length_nil, Nat.add_zero, Option.getD_some]
  | cons z Z =>
    have h0 : peek (pre ++ (z :: Z ++ tl)) pre.length ≠ NUL := by
      rw [peek_append]
      simpa using (hZ z (List.mem_cons_self _ _)).2
    have h1 := strspn_run pre (z :: Z) tl delim hZ htl
    have h2 : strspn (pre ++ (z :: Z ++ tl)) (pre.length + (z :: Z).length) delim = 0 := by
      have := strspn_run (pre ++ (z :: Z)) [] tl delim (by simp) htl
      simpa [List.append_assoc] using this
    unfold strtok
    simp only [hs, h0, if_false, h1, Option.getD_some, h2, Nat.add_zero]
    split <;> rfl

theorem line_of_no_newline (M U T : List Char) (hM : IsToken M) (hU : IsToken U)
    (hT : ∀ c ∈ T, c ≠ '\n') : ∀ c ∈ line_of M U T, c ≠ '\n' := by
  intro c hc
  simp only [line_of, List.mem_append, List.mem_cons] at hc
  rcases hc with hc | hc | hc | hc | hc
  · intro h; exact (hM.2 c hc).2 (by rw [h]; decide)
  · rw [hc]; decide
  · intro h; exact (hU.2 c hc).2 (by rw [h]; decide)
  · rw [hc]; decide
  · exact hT c hc

/-- The first two `strtok` calls of `parse_request_method` on a request line. -/
theorem strtok_method_uri (M U T : List Char) (hM : IsToken M) (hU : IsToken U) :
    strtok (line_of M U T ++ ['\n'] ++ [NUL]) 0 (some 0) WHITESPACE
        = (some 0, M ++ NUL :: (U ++ ' ' :: (T ++ ['\n', NUL])), M.length + 1)
      ∧ cstr (M ++ NUL :: (U ++ ' ' :: (T ++ ['\n', NUL]))) 0 = M
      ∧ strtok (M ++ NUL :: (U ++ ' ' :: (T ++ ['\n', NUL]))) (M.length + 1) none WHITESPACE
        = (some (M.length + 1), M ++ NUL :: (U ++ NUL :: (T ++ ['\n', NUL])),
            M.length + 1 + U.length + 1) := by
  refine ⟨?_, ?_, ?_⟩
  · have := strtok_delim [] M (U ++ ' ' :: (T ++ ['\n', NUL])) ' ' WHITESPACE 0 (some 0) rfl
      hM.1 hM.2 space_mem_WHITESPACE space_ne_NUL
    simpa [line_of, List.append_assoc] using this
  · exact cstr_zero_token M _ (fun c hc => (hM.2 c hc).1)
  · have := strtok_delim (M ++ [NUL]) U (T ++ ['\n', NUL]) ' ' WHITESPACE (M.length + 1) none
      (by simp) hU.1 hU.2 space_mem_WHITESPACE space_ne_NUL
    simpa [List.append_assoc] using this

/-- A request line whose URI is `Z ++ P`, a run `Z` of `?` and then no further
`?`: the URI is stored as it is and the query becomes the one-byte string `" "`. -/
theorem parse_request_method_no_query (r : Request) (M Z P T rest : List Char)
    (hM : IsToken M) (hU : IsToken (Z ++ P)) (hZ : ∀ c ∈ Z, c = '?') (hq : '?' ∉ P)
    (hT : ∀ c ∈ T, c ≠ '\n') (hlen : (line_of M (Z ++ P) T).length + 1 < BUFSIZ)
    (hfile : r.file = line_of M (Z ++ P) T ++ '\n' :: rest) :
    parse_request_method r
      = .ok (0, { r with file := rest, method := some M, query := some [' '],
                         uri := some (Z ++ P) }) := by
  have hf := fgets_line _ rest (line_of_no_newline M (Z ++ P) T hM hU hT) hlen
  obtain ⟨e1, c1, e2⟩ := strtok_method_uri M (Z ++ P) T hM hU
  have hZq : ∀ c ∈ Z, c ∈ ['?'] ∧ c ≠ NUL := by
    intro c hc
    rw [hZ c hc]
    exact ⟨List.mem_singleton_self _, question_ne_NUL⟩
  have hPq : ∀ c ∈ P, c ≠ NUL ∧ c ∉ ['?'] := by
    intro c hc
    refine ⟨(hU.2 c (List.mem_append_right _ hc)).1, ?_⟩
    intro h
    rw [List.mem_singleton] at h
    exact hq (h ▸ hc)
  have hpre : (M ++ NUL :: Z).length = M.length + 1 + Z.length := by
    simp; omega
  have e3 : ∃ t, strtok (M ++ NUL :: (Z ++ P ++ NUL :: (T ++ ['\n', NUL])))
        (M.length + 1 + (Z ++ P).length + 1) (some (M.length + 1)) ['?']
      = (t, M ++ NUL :: (Z ++ P ++ NUL :: (T ++ ['\n', NUL])),
          M.length + 1 + (Z ++ P).length) := by
    have hskip := strtok_skip (M ++ [NUL]) Z (P ++ NUL :: (T ++ ['\n', NUL])) ['?']
      (M.length + 1 + (Z ++ P).length + 1) (some (M.length + 1)) (by simp) hZq
      (by
        cases P with
        | nil => exact Or.inl rfl
        | cons a P => exact Or.inr (hPq a (List.mem_cons_self _ _)).2)
    by_cases hP : P = []
    · subst hP
      have := strtok_end (M ++ NUL :: Z) (T ++ ['\n', NUL]) ['?']
        (M.length + 1 + (Z ++ []).length + 1) (some (M.length + 1 + Z.length)) (by simp; omega)
      rw [hpre] at this
      refine ⟨none, ?_⟩
      simp only [List.append_assoc, List.cons_append, List.nil_append, List.length_append,
        List.length_cons, List.length_nil, List.append_nil, Nat.add_zero] at hskip this ⊢
      rw [hskip, this]
    · have := strtok_last (M ++ NUL :: Z) P (T ++ ['\n', NUL]) ['?']
        (M.length + 1 + (Z ++ P).length + 1) (some (M.length + 1 + Z.length)) (by simp; omega)
        hP hPq
      rw [hpre] at this
      refine ⟨some (M.length + 1 + Z.length), ?_⟩
      simp only [List.append_assoc, List.cons_append, List.nil_append, List.length_append,
        List.length_cons, List.length_nil, List.append_nil, Nat.add_zero] at hskip this ⊢
      rw [hskip, this]
      simp only [Nat.add_assoc]
  obtain ⟨t, e3⟩ := e3
  have e4 : strtok (M ++ NUL :: (Z ++ P ++ NUL :: (T ++ ['\n', NUL])))
        (M.length + 1 + (Z ++ P).length) none WHITESPACE
      = (none, M ++ NUL :: (Z ++ P ++ NUL :: (T ++ ['\n', NUL])),
          M.length + 1 + (Z ++ P).length) := by
    have := strtok_end (M ++ NUL :: (Z ++ P)) (T ++ ['\n', NUL]) WHITESPACE
      (M.length + 1 + (Z ++ P).length) none (by simp; omega)
    have hlen2 : (M ++ NUL :: (Z ++ P)).length = M.length + 1 + (Z ++ P).length := by
      simp; omega
    rw [hlen2] at this
    simpa [List.append_assoc] using this
  have c2 : cstr (M ++ NUL :: (Z ++ P ++ NUL :: (T ++ ['\n', NUL]))) (M.length + 1)
      = Z ++ P := by
    have := cstr_token (M ++ [NUL]) (Z ++ P) (T ++ ['\n', NUL]) (fun c hc => (hU.2 c hc).1)
    simpa [List.append_assoc] using this
  unfold parse_request_method
  rw [hfile, hf]
  simp only [e1, e2, e3, e4, c1, c2]

/-- The third `strtok` call of `parse_request_method` (`strtok(uri, "?")`) when
the URI is `Z ++ P ++ "?" ++ Q`, a run `Z` of `?` and a part `P`, not empty and
without `?`: the `?` behind `P` is overwritten and the saved pointer is on `Q`. -/
theorem strtok_question (M Z P Q T' : List Char) (sv : Nat) (hP : P ≠ [])
    (hZ : ∀ c ∈ Z, c = '?') (hPq : ∀ c ∈ P, c ≠ NUL ∧ c ∉ ['?']) :
    strtok (M ++ NUL :: (Z ++ (P ++ '?' :: Q) ++ NUL :: T')) sv (some (M.length + 1)) ['?']
      = (some (M.length + 1 + Z.length), M ++ NUL :: (Z ++ (P ++ NUL :: (Q ++ NUL :: T'))),
          M.length + 1 + Z.length + P.length + 1) := by
  have hZq : ∀ c ∈ Z, c ∈ ['?'] ∧ c ≠ NUL := by
    intro c hc
    rw [hZ c hc]
    exact ⟨List.mem_singleton_self _, question_ne_NUL⟩
  have hpre : (M ++ NUL :: Z).length = M.length + 1 + Z.length := by
    simp; omega
  have hskip := strtok_skip (M ++ [NUL]) Z (P ++ '?' :: (Q ++ NUL :: T')) ['?'] sv
    (some (M.length + 1)) (by simp) hZq
    (by
      cases P with
      | nil => exact absurd rfl hP
      | cons a P => exact Or.inr (hPq a (List.mem_cons_self _ _)).2)
  have := strtok_delim (M ++ NUL :: Z) P (Q ++ NUL :: T') '?' ['?'] sv
    (some (M.length + 1 + Z.length)) (by simp; omega) hP hPq (List.mem_singleton_self _)
    question_ne_NUL
  rw [hpre] at this
  simp only [List.append_assoc, List.cons_append, List.nil_append, List.length_append,
    List.length_cons, List.length_nil, Nat.add_zero] at hskip this ⊢
  rw [hskip, this]

/-- The same call repeated after the `?` was overwritten finds `P` again and
writes nothing. -/
theorem strtok_question_again (M Z P Q T' : List Char) (sv : Nat) (hP : P ≠ [])
    (hZ : ∀ c ∈ Z, c = '?') (hPq : ∀ c ∈ P, c ≠ NUL ∧ c ∉ ['?']) :
    strtok (M ++ NUL :: (Z ++ (P ++ NUL :: (Q ++ NUL :: T')))) sv (some (M.length + 1)) ['?']
      = (some (M.length + 1 + Z.length), M ++ NUL :: (Z ++ (P ++ NUL :: (Q ++ NUL :: T'))),
          M.length + 1 + Z.length + P.length) := by
  have hZq : ∀ c ∈ Z, c ∈ ['?'] ∧ c ≠ NUL := by
    intro c hc
    rw [hZ c hc]
    exact ⟨List.mem_singleton_self _, question_ne_NUL⟩
  have hpre : (M ++ NUL :: Z).length = M.length + 1 + Z.length := by
    simp; omega
  have hskip := strtok_skip (M ++ [NUL]) Z (P ++ NUL :: (Q ++ NUL :: T')) ['?'] sv
    (some (M.length + 1)) (by simp) hZq
    (by
      cases P with
      | nil => exact absurd rfl hP
      | cons a P => exact Or.inr (hPq a (List.mem_cons_self _ _)).2)
  have := strtok_last (M ++ NUL :: Z) P (Q ++ NUL :: T') ['?'] sv
    (some (M.length + 1 + Z.length)) (by simp; omega) hP hPq
  rw [hpre] at this
  simp only [List.append_assoc, List.cons_append, List.nil_append, List.length_append,
    List.length_cons, List.length_nil, Nat.add_zero] at hskip this ⊢
  rw [hskip, this]

/-- A request line whose URI is `Z ++ P ++ "?" ++ Q` with `Q` not empty (`Z` a
run of `?`, `P` not empty and without `?`): the URI stored is `P`, the query
stored is `Q`. -/
theorem parse_request_method_query (r : Request) (M Z P Q T rest : List Char)
    (hM : IsToken M) (hU : IsToken (Z ++ (P ++ '?' :: Q))) (hZ : ∀ c ∈ Z, c = '?')
    (hP : P ≠ []) (hq : '?' ∉ P) (hQ : Q ≠ []) (hT : ∀ c ∈ T, c ≠ '\n')
    (hlen : (line_of M (Z ++ (P ++ '?' :: Q)) T).length + 1 < BUFSIZ)
    (hfile : r.file = line_of M (Z ++ (P ++ '?' :: Q)) T ++ '\n' :: rest) :
    parse_request_method r
      = .ok (0, { r with file := rest, method := some M, query := some Q,
                         uri := some P }) := by
  have hf := fgets_line _ rest (line_of_no_newline M _ T hM hU hT) hlen
  obtain ⟨e1, c1, e2⟩ := strtok_method_uri M (Z ++ (P ++ '?' :: Q)) T hM hU
  have hPq : ∀ c ∈ P, c ≠ NUL ∧ c ∉ ['?'] := by
    intro c hc
    refine ⟨(hU.2 c (by simp [hc])).1, ?_⟩
    intro h
    rw [List.mem_singleton] at h
    exact hq (h ▸ hc)
  have hQt : ∀ c ∈ Q, c ≠ NUL ∧ c ∉ WHITESPACE := fun c hc => hU.2 c (by simp [hc])
  have e3 := strtok_question M Z P Q (T ++ ['\n', NUL])
    (M.length + 1 + (Z ++ (P ++ '?' :: Q)).length + 1) hP hZ hPq
  have hpre : (M ++ NUL :: (Z ++ (P ++ [NUL]))).length = M.length + 1 + Z.length + P.length + 1 := by
    simp; omega
  have e4 : strtok (M ++ NUL :: (Z ++ (P ++ NUL :: (Q ++ NUL :: (T ++ ['\n', NUL])))))
        (M.length + 1 + Z.length + P.length + 1) none WHITESPACE
      = (some (M.length + 1 + Z.length + P.length + 1),
          M ++ NUL :: (Z ++ (P ++ NUL :: (Q ++ NUL :: (T ++ ['\n', NUL])))),
          M.length + 1 + Z.length + P.length + 1 + Q.length) := by
    have := strtok_last (M ++ NUL :: (Z ++ (P ++ [NUL]))) Q (T ++ ['\n', NUL]) WHITESPACE
      (M.length + 1 + Z.length + P.length + 1) none (by simp; omega) hQ hQt
    rw [hpre] at this
    simpa [List.append_assoc] using this
  have e5 := strtok_question_again M Z P Q (T ++ ['\n', NUL])
    (M.length + 1 + Z.length + P.length + 1 + Q.length) hP hZ hPq
  have c2 : cstr (M ++ NUL :: (Z ++ (P ++ NUL :: (Q ++ NUL :: (T ++ ['\n', NUL])))))
      (M.length + 1 + Z.length + P.length + 1) = Q := by
    have := cstr_token (M ++ NUL :: (Z ++ (P ++ [NUL]))) Q (T ++ ['\n', NUL])
      (fun c hc => (hQt c hc).1)
    rw [hpre] at this
    simpa [List.append_assoc] using this
  have c3 : cstr (M ++ NUL :: (Z ++ (P ++ NUL :: (Q ++ NUL :: (T ++ ['\n', NUL])))))
      (M.length + 1 + Z.length) = P := by
    have := cstr_token (M ++ NUL :: Z) P (Q ++ NUL :: (T ++ ['\n', NUL]))
      (fun c hc => (hPq c hc).1)
    have hpre2 : (M ++ NUL :: Z).length = M.length + 1 + Z.length := by
      simp; omega
    rw [hpre2] at this
    simpa [List.append_assoc] using this
  unfold parse_request_method
  rw [hfile, hf]
  simp only [e1, e2, e3, e4, e5, c1, c2, c3]

/-- A request line whose URI is `Z ++ P ++ "?"`, with nothing behind the `?`
(`Z` a run of `?`, `P` not empty and without `?`): the URI stored is `Z ++ P`
and the query becomes the one-byte string `" "`. -/
theorem parse_request_method_empty_query (r : Request) (M Z P T rest : List Char)
    (hM : IsToken M) (hU : IsToken (Z ++ (P ++ ['?']))) (hZ : ∀ c ∈ Z, c = '?')
    (hP : P ≠ []) (hq : '?' ∉ P) (hT : ∀ c ∈ T, c ≠ '\n')
    (hlen : (line_of M (Z ++ (P ++ ['?'])) T).length + 1 < BUFSIZ)
    (hfile : r.file = line_of M (Z ++ (P ++ ['?'])) T ++ '\n' :: rest) :
    parse_request_method r
      = .ok (0, { r with file := rest, method := some M, query := some [' '],
                         uri := some (Z ++ P) }) := by
  have hf := fgets_line _ rest (line_of_no_newline M _ T hM hU hT) hlen
  obtain ⟨e1, c1, e2⟩ := strtok_method_uri M (Z ++ (P ++ ['?'])) T hM hU
  have hPq : ∀ c ∈ P, c ≠ NUL ∧ c ∉ ['?'] := by
    intro c hc
    refine ⟨(hU.2 c (by simp [hc])).1, ?_⟩
    intro h
    rw [List.mem_singleton] at h
    exact hq (h ▸ hc)
  have e3 := strtok_question M Z P [] (T ++ ['\n', NUL])
    (M.length + 1 + (Z ++ (P ++ ['?'])).length + 1) hP hZ hPq
  have hpre : (M ++ NUL :: (Z ++ (P ++ [NUL]))).length = M.length + 1 + Z.length + P.length + 1 := by
    simp; omega
  have e4 : strtok (M ++ NUL :: (Z ++ (P ++ NUL :: ([] ++ NUL :: (T ++ ['\n', NUL])))))
        (M.length + 1 + Z.length + P.length + 1) none WHITESPACE
      = (none, M ++ NUL :: (Z ++ (P ++ NUL :: ([] ++ NUL :: (T ++ ['\n', NUL])))),
          M.length + 1 + Z.length + P.length + 1) := by
    have := strtok_end (M ++ NUL :: (Z ++ (P ++ [NUL]))) (T ++ ['\n', NUL]) WHITESPACE
      (M.length + 1 + Z.length + P.length + 1) none (by simp; omega)
    rw [hpre] at this
    simpa [List.append_assoc] using this
  have c3 : cstr (M ++ NUL :: (Z ++ (P ++ NUL :: ([] ++ NUL :: (T ++ ['\n', NUL])))))
      (M.length + 1) = Z ++ P := by
    have := cstr_token (M ++ [NUL]) (Z ++ P) (NUL :: (T ++ ['\n', NUL]))
      (fun c hc => (hU.2 c (by
        rcases List.mem_append.1 hc with h | h
        · simp [h]
        · simp [h])).1)
    simpa [List.append_assoc] using this
  unfold parse_request_method
  rw [hfile, hf]
  simp only [e1, e2, e3, e4, c1, c3]

theorem fgetsAux_full (l rest : List Char) (hl : ∀ c ∈ l, c ≠ '\n') :
    fgetsAux l.length (l ++ rest) = (l, rest) := by
  induction l with
  | nil => rfl
  | cons a l ih =>
    have ha : a ≠ '\n' := hl a (List.mem_cons_self _ _)
    have hl2 : ∀ c ∈ l, c ≠ '\n' := fun c hc => hl c (List.mem_cons_of_mem _ hc)
    simp [fgetsAux, ha, ih hl2]

/-- `fgets` on a stream whose first `BUFSIZ - 1` bytes hold no line feed stores
just these bytes. -/
theorem fgets_full (l rest : List Char) (hl : ∀ c ∈ l, c ≠ '\n')
    (hlen : l.length = BUFSIZ - 1) : fgets BUFSIZ (l ++ rest) = some (l, rest) := by
  have h := fgetsAux_full l rest hl
  rw [hlen] at h
  cases l with
  | nil => exact absurd hlen (by decide)
  | cons a l => exact congrArg some h

/-- A request line cut by the buffer inside its URI (which has no `?`): it is
accepted, and the URI stored is the part that fitted. -/
theorem parse_request_method_truncated (r : Request) (M U rest : List Char)
    (hM : IsToken M) (hU : IsToken U) (hq : '?' ∉ U)
    (hlen : (M ++ ' ' :: U).length = BUFSIZ - 1) (hfile : r.file = (M ++ ' ' :: U) ++ rest) :
    parse_request_method r
      = .ok (0, { r with file := rest, method := some M, query := some [' '],
                         uri := some U }) := by
  have hl : ∀ c ∈ M ++ ' ' :: U, c ≠ '\n' := by
    intro c hc
    simp only [List.mem_append, List.mem_cons] at hc
    rcases hc with hc | hc | hc
    · intro h; exact (hM.2 c hc).2 (by rw [h]; decide)
    · rw [hc]; decide
    · intro h; exact (hU.2 c hc).2 (by rw [h]; decide)
  have hf := fgets_full _ rest hl hlen
  have hUq : ∀ c ∈ U, c ≠ NUL ∧ c ∉ ['?'] := by
    intro c hc
    refine ⟨(hU.2 c hc).1, ?_⟩
    intro h
    rw [List.mem_singleton] at h
    exact hq (h ▸ hc)
  have e1 : strtok ((M ++ ' ' :: U) ++ [NUL]) 0 (some 0) WHITESPACE
      = (some 0, M ++ NUL :: (U ++ [NUL]), M.length + 1) := by
    have := strtok_delim [] M (U ++ [NUL]) ' ' WHITESPACE 0 (some 0) rfl hM.1 hM.2
      space_mem_WHITESPACE space_ne_NUL
    simpa [List.append_assoc] using this
  have e2 : strtok (M ++ NUL :: (U ++ [NUL])) (M.length + 1) none WHITESPACE
      = (some (M.length + 1), M ++ NUL :: (U ++ [NUL]), M.length + 1 + U.length) := by
    have := strtok_last (M ++ [NUL]) U [] WHITESPACE (M.length + 1) none (by simp) hU.1 hU.2
    simpa [List.append_assoc] using this
  have e3 : strtok (M ++ NUL :: (U ++ [NUL])) (M.length + 1 + U.length) (some (M.length + 1))
        ['?']
      = (some (M.length + 1), M ++ NUL :: (U ++ [NUL]), M.length + 1 + U.length) := by
    have := strtok_last (M ++ [NUL]) U [] ['?'] (M.length + 1 + U.length)
      (some (M.length + 1)) (by simp) hU.1 hUq
    simpa [List.append_assoc] using this
  have e4 : strtok (M ++ NUL :: (U ++ [NUL])) (M.length + 1 + U.length) none WHITESPACE
      = (none, M ++ NUL :: (U ++ [NUL]), M.length + 1 + U.length) := by
    have := strtok_end (M ++ NUL :: U) [] WHITESPACE (M.length + 1 + U.length) none
      (by simp; omega)
    have hlen2 : (M ++ NUL :: U).length = M.length + 1 + U.length := by
      simp; omega
    rw [hlen2] at this
    simpa [List.append_assoc] using this
  have c1 : cstr (M ++ NUL :: (U ++ [NUL])) 0 = M :=
    cstr_zero_token M _ (fun c hc => (hM.2 c hc).1)
  have c2 : cstr (M ++ NUL :: (U ++ [NUL])) (M.length + 1) = U := by
    have := cstr_token (M ++ [NUL]) U [] (fun c hc => (hU.2 c hc).1)
    simpa [List.append_assoc] using this
  unfold parse_request_method
  rw [hfile, hf]
  simp only [e1, e2, e3, e4, c1, c2]

theorem IsToken_replicate (n : Nat) (hn : 0 < n) : IsToken (List.replicate n 'a') := by
  refine ⟨?_, ?_⟩
  · intro h
    have := congrArg List.length h
    simp at this
    omega
  · intro c hc
    rw [List.eq_of_mem_replicate hc]
    decide

theorem split_run (p : Char → Bool) (l : List Char) :
    ∃ a b, l = a ++ b ∧ (∀ c ∈ a, p c = true) ∧ (b = [] ∨ ∃ x xs, b = x :: xs ∧ p x = false) := by
  induction l with
  | nil => exact ⟨[], [], rfl, by simp, Or.inl rfl⟩
  | cons x l ih =>
    by_cases hx : p x = true
    · obtain ⟨a, b, hab, ha, hb⟩ := ih
      refine ⟨x :: a, b, by rw [hab]; rfl, ?_, hb⟩
      intro c hc
      rcases List.mem_cons.1 hc with h | h
      · rw [h]; exact hx
      · exact ha c h
    · exact ⟨[], x :: l, rfl, by simp, Or.inr ⟨x, l, rfl, by simpa using hx⟩⟩

/-- Every string is a run of `?`, then a part without `?`, then nothing or a `?`
and the rest; the part in the middle is empty only when nothing follows. -/
theorem split_uri (U : List Char) :
    (∃ Z P, U = Z ++ P ∧ (∀ c ∈ Z, c = '?') ∧ '?' ∉ P)
      ∨ (∃ Z P Q, U = Z ++ (P ++ '?' :: Q) ∧ (∀ c ∈ Z, c = '?') ∧ P ≠ [] ∧ '?' ∉ P) := by
  obtain ⟨Z, U', hU, hZ, hU'⟩ := split_run (fun c => c == '?') U
  obtain ⟨P, R, hUP, hP, hR⟩ := split_run (fun c => c != '?') U'
  have hZ' : ∀ c ∈ Z, c = '?' := fun c hc => by simpa using hZ c hc
  have hP' : '?' ∉ P := fun h => by simpa using hP _ h
  rcases hR with hR | ⟨x, Q, hR, hx⟩
  · left
    refine ⟨Z, P, ?_, hZ', hP'⟩
    rw [hU, hUP, hR, List.append_nil]
  · right
    have hx' : x = '?' := by simpa using hx
    refine ⟨Z, P, Q, ?_, hZ', ?_, hP'⟩
    · rw [hU, hUP, hR, hx']
    · intro hPnil
      rcases hU' with h | ⟨y, ys, h, hy⟩
      · rw [hUP, hR, hPnil] at h
        exact List.cons_ne_nil _ _ h
      · rw [hUP, hR, hPnil, hx'] at h
        have : '?' = y := (List.cons.inj h).1
        rw [← this] at hy
        exact absurd hy (by decide)

/-- Every request line with a method token and a URI token is accepted, and the
method is stored as it is. -/
theorem parse_request_method_accepts (r : Request) (M U T rest : List Char)
    (hM : IsToken M) (hU : IsToken U) (hT : ∀ c ∈ T, c ≠ '\n')
    (hlen : (line_of M U T).length + 1 < BUFSIZ)
    (hfile : r.file = line_of M U T ++ '\n' :: rest) :
    ∃ r', parse_request_method r = .ok (0, r') ∧ r'.method = some M ∧ r'.file = rest
      ∧ r'.headers = r.headers := by
  rcases split_uri U with ⟨Z, P, hUe, hZ, hq⟩ | ⟨Z, P, Q, hUe, hZ, hP, hq⟩
  · subst hUe
    exact ⟨_, parse_request_method_no_query r M Z P T rest hM hU hZ hq hT hlen hfile,
      rfl, rfl, rfl⟩
  · subst hUe
    by_cases hQ : Q = []
    · subst hQ
      exact ⟨_, parse_request_method_empty_query r M Z P T rest hM hU hZ hP hq hT hlen hfile,
        rfl, rfl, rfl⟩
    · exact ⟨_, parse_request_method_query r M Z P Q T rest hM hU hZ hP hq hQ hT hlen hfile,
        rfl, rfl, rfl⟩

/-! ## Facts about the environment -/

theorem getenv_setenv_same (env : Env) (name value : CStr) :
    getenv (setenv env name value) name = some value := by
  induction env with
  | nil => simp [setenv, getenv]
  | cons kv env ih =>
    unfold setenv
    by_cases h : kv.1 = name
    · simp [h, getenv]
    · simp only [h, if_false]
      simp only [getenv, List.find?_cons] at ih ⊢
      have : (kv.1 == name) = false := by simpa using h
      rw [this]
      exact ih

theorem getenv_setenv_other (env : Env) (name value k : CStr) (hk : k ≠ name) :
    getenv (setenv env name value) k = getenv env k := by
  induction env with
  | nil =>
    have : (name == k) = false := by simpa using fun h => hk h.symm
    simp [setenv, getenv, List.find?_cons, this]
  | cons kv env ih =>
    unfold setenv
    by_cases h : kv.1 = name
    · have h1 : (name == k) = false := by simpa using fun h => hk h.symm
      have h2 : (kv.1 == k) = false := by rw [h]; exact h1
      simp [h, getenv, List.find?_cons, h1, h2]
    · simp only [h, if_false]
      simp only [getenv, List.find?_cons] at ih ⊢
      cases hkv : (kv.1 == k)
      · exact ih
      · rfl

theorem getenv_export_headers (hs : List Header) (env : Env) (k : CStr)
    (hk : k ∉ forwarded_names) : getenv (export_headers hs env) k = getenv env k := by
  have hk' : k ≠ "HTTP_HOST".toList ∧ k ≠ "HTTP_CONNECTION".toList ∧ k ≠ "HTTP_ACCEPT".toList
      ∧ k ≠ "HTTP_ACCEPT_ENCODING".toList ∧ k ≠ "HTTP_ACCEPT_LANGUAGE".toList
      ∧ k ≠ "HTTP_USER_AGENT".toList := by
    simp only [forwarded_names, List.mem_cons, List.mem_singleton, not_or, List.not_mem_nil,
      or_false] at hk
    exact hk
  induction hs generalizing env with
  | nil => rfl
  | cons h hs ih =>
    unfold export_headers
    split
    · rw [ih, getenv_setenv_other _ _ _ _ hk'.1]
    · split
      · rw [ih, getenv_setenv_other _ _ _ _ hk'.2.1]
      · split
        · rw [ih, getenv_setenv_other _ _ _ _ hk'.2.2.1]
        · split
          · rw [ih, getenv_setenv_other _ _ _ _ hk'.2.2.2.1]
          · split
            · rw [ih, getenv_setenv_other _ _ _ _ hk'.2.2.2.2.1]
            · split
              · rw [ih, getenv_setenv_other _ _ _ _ hk'.2.2.2.2.2]
              · exact ih env

/-- After the export step `QUERY_STRING` holds the query of the request. -/
theorem cgi_export_query (w : World) (env : Env) (r : Request) (query method uri path : CStr)
    (hq : r.query = some query) (hm : r.method = some method) (hu : r.uri = some uri)
    (hp : r.path = some path) :
    ∃ env', cgi_export w env r = .ok env'
      ∧ getenv env' "QUERY_STRING".toList = some query := by
  have h : cgi_export w env r = .ok (export_headers r.headers
      (setenv (setenv (setenv (setenv (setenv (setenv (setenv (setenv env
        "DOCUMENT_ROOT".toList w.RootPath) "QUERY_STRING".toList query)
        "REMOTE_ADDR".toList r.host) "REMOTE_PORT".toList r.port)
        "REQUEST_METHOD".toList method) "REQUEST_URI".toList uri)
        "SCRIPT_FILENAME".toList path) "SERVER_PORT".toList w.Port)) := by
    simp only [cgi_export, hq, hm, hu, hp]
  refine ⟨_, h, ?_⟩
  rw [getenv_export_headers _ _ _ (by decide),
    getenv_setenv_other _ _ _ _ (by decide), getenv_setenv_other _ _ _ _ (by decide),
    getenv_setenv_other _ _ _ _ (by decide), getenv_setenv_other _ _ _ _ (by decide),
    getenv_setenv_other _ _ _ _ (by decide), getenv_setenv_other _ _ _ _ (by decide),
    getenv_setenv_same]

/-! ## Facts about `parse_request_headers` -/

theorem parse_request_method_headers (r r' : Request) (st : Int)
    (h : parse_request_method r = .ok (st, r')) : r'.headers = r.headers := by
  unfold parse_request_method at h
  cases hf : fgets BUFSIZ r.file with
  | none => rw [hf] at h; cases h; rfl
  | some p =>
    obtain ⟨line, rest⟩ := p
    rw [hf] at h
    dsimp only at h
    rcases h1 : strtok (line ++ [NUL]) 0 (some 0) WHITESPACE with ⟨_ | m, b1, s1⟩
    · rw [h1] at h; cases h
    · rw [h1] at h
      dsimp only at h
      rcases h2 : strtok b1 s1 none WHITESPACE with ⟨u, b2, s2⟩
      rw [h2] at h
      dsimp only at h
      rcases h3 : strtok b2 s2 u ['?'] with ⟨x, b3, s3⟩
      rw [h3] at h
      dsimp only at h
      rcases h4 : strtok b3 s3 none WHITESPACE with ⟨_ | q, b4, s4⟩
      · rw [h4] at h
        dsimp only at h
        cases u <;> (dsimp only at h; cases h; rfl)
      · rw [h4] at h
        dsimp only at h
        rcases h5 : strtok b4 s4 u ['?'] with ⟨_ | v, b5, s5⟩ <;>
          (rw [h5] at h; dsimp only at h; cases h; rfl)

/-- A buffer that `fgets` filled is its C string, the NUL and what follows. -/
theorem buffer_split (line : List Char) :
    ∃ post, line ++ [NUL] = cstr (line ++ [NUL]) 0 ++ NUL :: post
      ∧ (∀ c ∈ cstr (line ++ [NUL]) 0, c ≠ NUL ∧ c ∈ line) := by
  obtain ⟨a, b, hab, ha, hb⟩ := split_run (fun c => c != NUL) (line ++ [NUL])
  have ha' : ∀ c ∈ a, c ≠ NUL := fun c hc => by simpa using ha c hc
  rcases hb with hb | ⟨x, xs, hb, hx⟩
  · exfalso
    rw [hb, List.append_nil] at hab
    exact ha' NUL (hab ▸ List.mem_append_right _ (List.mem_singleton_self _)) rfl
  · have hx' : x = NUL := by simpa using hx
    subst hx'
    subst hb
    have hc : cstr (line ++ [NUL]) 0 = a := by
      rw [hab]; exact cstr_zero_token a xs ha'
    refine ⟨xs, by rw [hc]; exact hab, ?_⟩
    intro c hcm
    rw [hc] at hcm
    refine ⟨ha' c hcm, ?_⟩
    have : c ∈ line ++ [NUL] := hab ▸ List.mem_append_left _ hcm
    rcases List.mem_append.1 this with h | h
    · exact h
    · exact absurd (List.mem_singleton.1 h) (ha' c hcm)

theorem strlen_token (tok post : List Char) (h : ∀ c ∈ tok, c ≠ NUL) :
    strlen (tok ++ NUL :: post) 0 = tok.length := by
  unfold strlen
  rw [cstr_zero_token tok post h]

/-- What `chomp` does to a string that is not empty: its last byte becomes NUL. -/
theorem chomp_token (tok post : List Char) (h : ∀ c ∈ tok, c ≠ NUL) (hne : tok ≠ []) :
    chomp (tok ++ NUL :: post) = .ok (tok.dropLast ++ NUL :: NUL :: post) := by
  obtain ⟨D, x, rfl⟩ : ∃ D x, tok = D ++ [x] :=
    ⟨tok.dropLast, tok.getLast hne, (List.dropLast_append_getLast hne).symm⟩
  unfold chomp
  rw [strlen_token _ post h, if_neg (by simp)]
  have := set_append_length D (NUL :: post) x NUL
  simp only [List.length_append, List.length_singleton, Nat.add_sub_cancel,
    List.dropLast_concat, List.append_assoc, List.singleton_append]
  rw [this]

/-- The body of the header loop never leaves defined behaviour on a string that is
not empty. -/
theorem parse_header_line_ok (line : List Char) (h : 0 < strlen (line ++ [NUL]) 0) :
    ∃ o, parse_header_line (line ++ [NUL]) = .ok o := by
  have hc : chomp (line ++ [NUL]) = .ok ((line ++ [NUL]).set (strlen (line ++ [NUL]) 0 - 1) NUL) := by
    unfold chomp
    rw [if_neg (by omega)]
  unfold parse_header_line
  rw [hc]
  dsimp only
  repeat' split
  all_goals exact ⟨_, rfl⟩

/-- A header line without a colon makes the body of the loop jump to `fail`. -/
theorem parse_header_line_no_colon (line : List Char) (h : 2 < strlen (line ++ [NUL]) 0)
    (hcolon : ':' ∉ line) : parse_header_line (line ++ [NUL]) = .ok none := by
  obtain ⟨post, hsplit, htok⟩ := buffer_split line
  have hlen : 2 < (cstr (line ++ [NUL]) 0).length := h
  generalize cstr (line ++ [NUL]) 0 = tok at hsplit htok hlen
  have hne : tok ≠ [] := by
    intro h0; rw [h0] at hlen; simp at hlen
  have hD : tok.dropLast ≠ [] := by
    intro h0
    have := congrArg List.length h0
    simp at this
    omega
  have hDt : ∀ c ∈ tok.dropLast, c ≠ NUL ∧ c ∉ [':'] := by
    intro c hc
    have hm := htok c (List.mem_of_mem_dropLast hc)
    refine ⟨hm.1, ?_⟩
    intro h1
    rw [List.mem_singleton] at h1
    exact hcolon (h1 ▸ hm.2)
  have e1 := strtok_last [] tok.dropLast (NUL :: post) [':'] 0 (some 0) rfl hD hDt
  have e2 := strtok_end tok.dropLast (NUL :: post) WHITESPACE (tok.dropLast.length) none rfl
  simp only [List.nil_append, List.length_nil, Nat.zero_add] at e1
  unfold parse_header_line
  rw [hsplit, chomp_token tok post (fun c hc => (htok c hc).1) hne]
  simp only [e1, e2]

theorem fgets_IsLine (l rest : List Char) (h : IsLine l) :
    fgets BUFSIZ (l ++ rest) = some (l, rest) := by
  obtain ⟨h1, h2, h3⟩ := h
  have hl : l.dropLast ++ ['\n'] = l := List.dropLast_append_getLast? _ h1
  have hlen : l.dropLast.length + 1 < BUFSIZ := by
    have := congrArg List.length hl
    rw [List.length_append, List.length_singleton] at this
    omega
  have := fgets_line l.dropLast rest (fun c hc h => h2 (h ▸ hc)) hlen
  rw [hl] at this
  rw [← this, ← hl]
  simp

/-- The header loop reaches `fail` when a line without a colon comes after any
number of header lines. -/
theorem headers_loop_fails (pre : List (List Char)) :
    ∀ (fuel : Nat) (tail : Bool) (r : Request) (bad rest : List Char),
      pre.length < fuel → (r.headers = [] ∨ tail = true) →
      (∀ l ∈ pre, IsLine l ∧ 2 < strlen (l ++ [NUL]) 0) →
      IsLine bad → 2 < strlen (bad ++ [NUL]) 0 → ':' ∉ bad →
      r.file = pre.flatten ++ (bad ++ rest) →
      ∃ r', parse_request_headers_loop fuel tail r = .ok (true, r') := by
  induction pre with
  | nil =>
    intro fuel tail r bad rest hfuel _ _ hbad hlen hcolon hfile
    cases fuel with
    | zero => exact absurd hfuel (Nat.lt_irrefl _)
    | succ fuel =>
      rw [List.flatten_nil, List.nil_append] at hfile
      unfold parse_request_headers_loop
      rw [hfile, fgets_IsLine bad rest hbad]
      simp only [hlen, if_true, parse_header_line_no_colon bad hlen hcolon]
      exact ⟨_, rfl⟩
  | cons l pre ih =>
    intro fuel tail r bad rest hfuel hinv hpre hbad hlen hcolon hfile
    cases fuel with
    | zero => exact absurd hfuel (Nat.not_lt_zero _)
    | succ fuel =>
      have hl := hpre l (List.mem_cons_self _ _)
      have hpre' : ∀ l' ∈ pre, IsLine l' ∧ 2 < strlen (l' ++ [NUL]) 0 :=
        fun l' h' => hpre l' (List.mem_cons_of_mem _ h')
      have hfuel' : pre.length < fuel := by simpa using hfuel
      rw [List.flatten_cons, List.append_assoc] at hfile
      obtain ⟨o, ho⟩ := parse_header_line_ok l (by omega)
      unfold parse_request_headers_loop
      rw [hfile, fgets_IsLine l _ hl.1]
      simp only [hl.2, if_true, ho]
      cases o with
      | none => exact ⟨_, rfl⟩
      | some curr =>
        dsimp only
        by_cases hh : r.headers = []
        · rw [if_pos hh]
          exact ih fuel true _ bad rest hfuel' (Or.inr rfl) hpre' hbad hlen hcolon rfl
        · rw [if_neg hh]
          have ht : tail = true := by
            rcases hinv with h | h
            · exact absurd h hh
            · exact h
          rw [if_pos ht]
          exact ih fuel true _ bad rest hfuel' (Or.inr rfl) hpre' hbad hlen hcolon rfl

theorem length_le_flatten (ls : List (List Char)) (h : ∀ l ∈ ls, l ≠ []) :
    ls.length ≤ ls.flatten.length := by
  induction ls with
  | nil => simp
  | cons l ls ih =>
    have hl : 0 < l.length := List.length_pos.2 (h l (List.mem_cons_self _ _))
    have := ih (fun l' h' => h l' (List.mem_cons_of_mem _ h'))
    simp only [List.length_cons, List.flatten_cons, List.length_append]
    omega

theorem IsLine_ne_nil (l : List Char) (h : IsLine l) : l ≠ [] := by
  intro h0
  rw [h0] at h
  exact absurd h.1 (by simp)

/-- When parsing fails, `handle_request` answers with the error page of
`HTTP_STATUS_BAD_REQUEST` and returns that status. -/
theorem handle_request_parse_failure (w : World) (env : Env) (r r' : Request)
    (h : parse_request r = .ok (-1, r')) :
    handle_request w env r
      = .ok (Status.HTTP_STATUS_BAD_REQUEST,
          (handle_error r' Status.HTTP_STATUS_BAD_REQUEST).2, env) := by
  unfold handle_request
  rw [h]
  rfl

theorem skip_whitespace_token (buf : List Char) (s : Nat) (V : CStr) (hc : cstr buf s = V)
    (hV : IsToken V) : skip_whitespace buf s = s := by
  unfold skip_whitespace
  rw [hc]
  cases V with
  | nil => exact absurd rfl hV.1
  | cons a V =>
    have ha := (hV.2 a (List.mem_cons_self _ _)).2
    have h1 : a ≠ ' ' := fun h => ha (by rw [h]; decide)
    have h2 : a ≠ '\n' := fun h => ha (by rw [h]; decide)
    have h3 : a ≠ '\t' := fun h => ha (by rw [h]; decide)
    simp [List.findIdx?_cons, h1, h2, h3]

/-- A header line `N: V` with a one-word value: the header stored has the name `N`
and the value `V`; `x` is the last byte of the line, which `chomp` removes. -/
theorem parse_header_line_word (N V : CStr) (x : Char) (hN : N ≠ [])
    (hNt : ∀ c ∈ N, c ≠ NUL ∧ c ∉ [':']) (hV : IsToken V) (hx : x ≠ NUL) :
    parse_header_line ((N ++ ':' :: ' ' :: (V ++ [x])) ++ [NUL])
      = .ok (some { name := N, value := V }) := by
  have htok : ∀ c ∈ N ++ ':' :: ' ' :: (V ++ [x]), c ≠ NUL := by
    intro c hc
    simp only [List.mem_append, List.mem_cons, List.mem_singleton, List.not_mem_nil,
      or_false] at hc
    rcases hc with hc | hc | hc | hc | hc
    · exact (hNt c hc).1
    · rw [hc]; decide
    · rw [hc]; decide
    · exact (hV.2 c hc).1
    · rw [hc]; exact hx
  have hchomp := chomp_token (N ++ ':' :: ' ' :: (V ++ [x])) [] htok (by simp)
  have hdrop : (N ++ ':' :: ' ' :: (V ++ [x])).dropLast = N ++ ':' :: ' ' :: V := by
    have : N ++ ':' :: ' ' :: (V ++ [x]) = (N ++ ':' :: ' ' :: V) ++ [x] := by simp
    rw [this, List.dropLast_concat]
  rw [hdrop] at hchomp
  have e1 : strtok (N ++ ':' :: ' ' :: V ++ [NUL, NUL]) 0 (some 0) [':']
      = (some 0, N ++ NUL :: ' ' :: (V ++ [NUL, NUL]), N.length + 1) := by
    have := strtok_delim [] N (' ' :: (V ++ [NUL, NUL])) ':' [':'] 0 (some 0) rfl hN hNt
      (List.mem_singleton_self _) (by decide)
    simpa [List.append_assoc] using this
  have e2 : strtok (N ++ NUL :: ' ' :: (V ++ [NUL, NUL])) (N.length + 1) none WHITESPACE
      = (some (N.length + 1 + 1), N ++ NUL :: ' ' :: (V ++ [NUL, NUL]),
          N.length + 1 + 1 + V.length) := by
    have hskip := strtok_skip (N ++ [NUL]) [' '] (V ++ [NUL, NUL]) WHITESPACE (N.length + 1)
      none (by simp) (by intro c hc; rw [List.mem_singleton.1 hc]; decide)
      (by
        cases V with
        | nil => exact absurd rfl hV.1
        | cons a V => exact Or.inr (hV.2 a (List.mem_cons_self _ _)).2)
    have := strtok_last (N ++ [NUL, ' ']) V [NUL] WHITESPACE (N.length + 1)
      (some (N.length + 1 + 1)) (by simp) hV.1 hV.2
    have hpre : (N ++ [NUL, ' ']).length = N.length + 1 + 1 := by simp
    rw [hpre] at this
    simp only [List.append_assoc, List.cons_append, List.nil_append, List.length_append,
      List.length_cons, List.length_nil, Nat.add_zero, List.singleton_append] at hskip this ⊢
    rw [hskip, this]
  have c1 : cstr (N ++ NUL :: ' ' :: (V ++ [NUL, NUL])) 0 = N :=
    cstr_zero_token N _ (fun c hc => (hNt c hc).1)
  have c2 : cstr (N ++ NUL :: ' ' :: (V ++ [NUL, NUL])) (N.length + 1 + 1) = V := by
    have := cstr_token (N ++ [NUL, ' ']) V [NUL] (fun c hc => (hV.2 c hc).1)
    have hpre : (N ++ [NUL, ' ']).length = N.length + 1 + 1 := by simp
    rw [hpre] at this
    simpa [List.append_assoc] using this
  have c3 := skip_whitespace_token _ _ V c2 hV
  unfold parse_header_line
  rw [hchomp]
  simp only [List.append_assoc, List.cons_append, List.nil_append] at e1 e2 c1 c2 c3 ⊢
  simp only [e1, e2, c1, c2, c3]

/-- The header loop does not depend on its fuel once the fuel exceeds the length
of the input: the fuel `parse_request_headers` gives is never used up. -/
theorem parse_request_headers_loop_fuel :
    ∀ (fuel fuel' : Nat) (tail : Bool) (r : Request),
      r.file.length < fuel → r.file.length < fuel' →
      parse_request_headers_loop fuel tail r = parse_request_headers_loop fuel' tail r := by
  intro fuel
  induction fuel with
  | zero => intro fuel' tail r h; exact absurd h (Nat.not_lt_zero _)
  | succ fuel ih =>
    intro fuel' tail r h h'
    cases fuel' with
    | zero => exact absurd h' (Nat.not_lt_zero _)
    | succ fuel' =>
      unfold parse_request_headers_loop
      cases hf : fgets BUFSIZ r.file with
      | none => rfl
      | some p =>
        obtain ⟨line, rest⟩ := p
        have hlt := fgets_shorter r.file line rest hf
        have e1 : ∀ (t : Bool) (hs : List Header),
            parse_request_headers_loop fuel t { r with file := rest, headers := hs }
              = parse_request_headers_loop fuel' t { r with file := rest, headers := hs } :=
          fun t hs => ih fuel' t _ (by simp only; omega) (by simp only; omega)
        dsimp only
        split
        · split
          · rfl
          · rfl
          · split
            · exact e1 true _
            · split
              · exact e1 true _
              · rfl
        · rfl

theorem parse_request_headers_of_fail (r r' : Request) (fuel : Nat)
    (hfuel : fuel = r.file.length + 1)
    (h : parse_request_headers_loop fuel false r = .ok (true, r')) :
    parse_request_headers r = .ok (-1, r') := by
  unfold parse_request_headers
  rw [← hfuel, h]

theorem parse_request_of_headers_fail (r r1 r2 : Request)
    (hm : parse_request_method r = .ok (0, r1))
    (hh : parse_request_headers r1 = .ok (-1, r2)) :
    parse_request r = .ok (-1, r2) := by
  unfold parse_request
  rw [hm]
  simp only [hh]
  rfl

/-- One header and then a blank line at once: the request is accepted with that
one header. -/
theorem parse_request_headers_one (r : Request) (l rest : List Char) (h : Header)
    (hr : r.headers = []) (hf : fgets BUFSIZ r.file = some (l, rest))
    (hlen : 2 < strlen (l ++ [NUL]) 0) (hp : parse_header_line (l ++ [NUL]) = .ok (some h))
    (hend : ends_at_once rest) :
    ∃ r', parse_request_headers r = .ok (0, r') ∧ r'.headers = [h] := by
  have hne : r.file ≠ [] := by
    intro h0
    rw [h0] at hf
    exact absurd hf (by simp [fgets])
  obtain ⟨k, hk⟩ : ∃ k, r.file.length + 1 = k + 1 + 1 :=
    ⟨r.file.length - 1, by have := List.length_pos.2 hne; omega⟩
  unfold parse_request_headers
  rw [hk]
  unfold parse_request_headers_loop
  rw [hf]
  simp only [hlen, if_true, hp, hr]
  unfold parse_request_headers_loop
  unfold ends_at_once at hend
  cases hf2 : fgets BUFSIZ rest with
  | none => exact ⟨{ r with file := rest, headers := [h] }, by simp, rfl⟩
  | some q =>
    obtain ⟨l2, rest2⟩ := q
    rw [hf2] at hend
    have : ¬ strlen (l2 ++ [NUL]) 0 > 2 := by
      have : strlen (l2 ++ [NUL]) 0 ≤ 2 := hend
      omega
    simp only [this, if_false]
    exact ⟨{ r with file := rest2, headers := [h] }, by simp, rfl⟩

theorem parse_request_headers_ends_at_once (r : Request) (hr : r.headers = [])
    (hend : ends_at_once r.file) : ∃ r', parse_request_headers r = .ok (-1, r') := by
  unfold ends_at_once at hend
  unfold parse_request_headers parse_request_headers_loop
  cases hf : fgets BUFSIZ r.file with
  | none => simp only [hr, if_true]; exact ⟨_, rfl⟩
  | some p =>
    obtain ⟨line, rest⟩ := p
    rw [hf] at hend
    have : ¬ strlen (line ++ [NUL]) 0 > 2 := by
      have : strlen (line ++ [NUL]) 0 ≤ 2 := hend
      omega
    simp only [this, if_false, hr, if_true]
    exact ⟨_, rfl⟩

theorem parse_request_headers_zero (r r' : Request) (st : Int)
    (h : parse_request_headers r = .ok (st, r')) (hst : ¬ st < 0) : r'.headers ≠ [] := by
  unfold parse_request_headers at h
  split at h
  · cases h
  · cases h; exact absurd (by decide) hst
  · split at h
    · cases h; exact absurd (by decide) hst
    · cases h; assumption

/-- The header loop, when it ends without `goto fail`, has appended one node per
buffer it worked on, in order, each the one the body of the loop makes. -/
theorem headers_loop_collects :
    ∀ (fuel : Nat) (tail : Bool) (r r' : Request), (r.headers = [] ∨ tail = true) →
      parse_request_headers_loop fuel tail r = .ok (false, r') →
      r'.headers.map (fun h => (Except.ok (some h) : Except Fault (Option Header)))
        = r.headers.map (fun h => (Except.ok (some h) : Except Fault (Option Header)))
          ++ (header_lines fuel r.file).map parse_header_line := by
  intro fuel
  induction fuel with
  | zero =>
    intro tail r r' _ h
    unfold parse_request_headers_loop at h
    cases h
    simp [header_lines]
  | succ fuel ih =>
    intro tail r r' hinv h
    unfold parse_request_headers_loop at h
    unfold header_lines
    cases hf : fgets BUFSIZ r.file with
    | none =>
      rw [hf] at h
      cases h
      simp
    | some p =>
      obtain ⟨line, rest⟩ := p
      rw [hf] at h
      dsimp only at h ⊢
      by_cases hlen : strlen (line ++ [NUL]) 0 > 2
      · rw [if_pos hlen] at h
        rw [if_pos hlen]
        cases hp : parse_header_line (line ++ [NUL]) with
        | error f => rw [hp] at h; cases h
        | ok o =>
          rw [hp] at h
          cases o with
          | none => cases h
          | some curr =>
            dsimp only at h
            by_cases hh : r.headers = []
            · rw [if_pos hh] at h
              have := ih true _ r' (Or.inr rfl) h
              rw [this, hh]
              simp [hp]
            · rw [if_neg hh] at h
              have ht : tail = true := by
                rcases hinv with h1 | h1
                · exact absurd h1 hh
                · exact h1
              rw [if_pos ht] at h
              have := ih true _ r' (Or.inr rfl) h
              rw [this]
              simp [hp]
      · rw [if_neg hlen] at h
        rw [if_neg hlen]
        cases h
        simp

/-! ## Facts about `handle_browse_request` -/

theorem strcmp_gt_iff_lt (a : CStr) : ∀ b : CStr, strcmp a b = .gt ↔ strcmp b a = .lt := by
  induction a with
  | nil => intro b; cases b <;> simp [strcmp]
  | cons x a ih =>
    intro b
    cases b with
    | nil => simp [strcmp]
    | cons y b =>
      simp only [strcmp]
      by_cases h1 : x.toNat < y.toNat
      · have h2 : ¬ y.toNat < x.toNat := by omega
        simp [h1, h2]
      · by_cases h2 : y.toNat < x.toNat
        · simp [h1, h2]
        · simp only [h1, h2, if_false]
          exact ih b

theorem alphasort_total (a b : CStr) : alphasort a b ∨ alphasort b a := by
  unfold alphasort
  by_cases h : strcmp a b = .gt
  · right
    rw [(strcmp_gt_iff_lt a b).1 h]
    decide
  · exact Or.inl h

theorem alphasort_trans (a : CStr) :
    ∀ b c : CStr, alphasort a b → alphasort b c → alphasort a c := by
  unfold alphasort
  induction a with
  | nil => intro b c _ _; cases c <;> simp [strcmp]
  | cons x a ih =>
    intro b c hab hbc
    cases b with
    | nil => simp [strcmp] at hab
    | cons y b =>
      cases c with
      | nil => simp [strcmp] at hbc
      | cons z c =>
        simp only [strcmp] at hab hbc ⊢
        by_cases h1 : x.toNat < y.toNat
        · by_cases h2 : y.toNat < z.toNat
          · have : x.toNat < z.toNat := by omega
            simp [this]
          · by_cases h3 : z.toNat < y.toNat
            · simp [h2, h3] at hbc
            · have : x.toNat < z.toNat := by omega
              simp [this]
        · by_cases h1' : y.toNat < x.toNat
          · simp [h1, h1'] at hab
          · simp only [h1, h1', if_false] at hab
            by_cases h2 : y.toNat < z.toNat
            · have : x.toNat < z.toNat := by omega
              simp [this]
            · by_cases h3 : z.toNat < y.toNat
              · simp [h2, h3] at hbc
              · simp only [h2, h3, if_false] at hbc
                have e1 : ¬ x.toNat < z.toNat := by omega
                have e2 : ¬ z.toNat < x.toNat := by omega
                simp only [e1, e2, if_false]
                exact ih b c hab hbc

theorem browse_item_eq (uri d_name : CStr) (hne : uri ≠ []) :
    browse_item uri d_name = .ok (list_item uri d_name) := by
  unfold browse_item list_item href
  cases hl : uri.getLast? with
  | none => exact absurd (List.getLast?_eq_none_iff.1 hl) hne
  | some c =>
    by_cases hc : c = '/'
    · subst hc
      simp
    · have : ¬ some c = some '/' := fun h => hc (Option.some.inj h)
      simp [hc]

theorem write_write (r : Request) (a b : List Char) : (r.write a).write b = r.write (a ++ b) := by
  simp [Request.write, List.append_assoc]

theorem browse_items_eq (uri : CStr) (hne : uri ≠ []) (es : List CStr) :
    ∀ r : Request, browse_items uri es r = .ok (r.write ((es.map (list_item uri)).flatten)) := by
  induction es with
  | nil => intro r; simp [browse_items, Request.write]
  | cons e es ih =>
    intro r
    unfold browse_items
    rw [browse_item_eq uri e hne]
    dsimp only
    rw [ih, write_write]
    simp

/-- What `handle_browse_request` writes: the header, then one list item per entry
of the sorted scan but the first. -/
theorem handle_browse_request_eq (w : World) (r : Request) (path uri : CStr)
    (entries : List CStr) (hp : r.path = some path) (hu : r.uri = some uri) (hne : uri ≠ [])
    (hscan : scandir w path = some entries) :
    handle_browse_request w r
      = .ok (Status.HTTP_STATUS_OK,
          r.write ("HTTP/1.0 200 OK\nContent-Type: text/html\n\r\n<ul type=\"square\">".toList
            ++ ((entries.drop 1).map (list_item uri)).flatten ++ "</ul>".toList)) := by
  unfold handle_browse_request
  rw [hp, hu]
  dsimp only
  rw [hscan]
  dsimp only
  rw [browse_items_eq uri hne]
  dsimp only
  simp only [write_write]
  simp [List.append_assoc]

theorem orderedInsert_le_head (a : CStr) (l : List CStr) (h : ∀ b ∈ l, alphasort a b) :
    l.orderedInsert alphasort a = a :: l := by
  cases l with
  | nil => rfl
  | cons b l => simp [List.orderedInsert, h b (List.mem_cons_self _ _)]

/-- When every child sorts after `..`, the sorted scan is `.`, `..` and the
children in order. -/
theorem scan_order (cs : List CStr) (h : ∀ c ∈ cs, strcmp ['.', '.'] c = .lt) :
    (['.'] :: ['.', '.'] :: cs).insertionSort alphasort
      = ['.'] :: ['.', '.'] :: cs.insertionSort alphasort := by
  have hmem : ∀ b ∈ cs.insertionSort alphasort, alphasort ['.', '.'] b := by
    intro b hb
    have hb' : b ∈ cs := (List.perm_insertionSort alphasort cs).subset hb
    unfold alphasort
    rw [h b hb']
    decide
  have h1 : (['.', '.'] :: cs).insertionSort alphasort
      = ['.', '.'] :: cs.insertionSort alphasort := by
    rw [List.insertionSort]
    exact orderedInsert_le_head _ _ hmem
  rw [List.insertionSort, h1]
  apply orderedInsert_le_head
  intro b hb
  rcases List.mem_cons.1 hb with hb | hb
  · rw [hb]; decide
  · exact alphasort_trans _ _ _ (by decide) (hmem b hb)

theorem request_line_eq (METHOD URI v eol : CStr) (heol : IsEol eol) :
    ∃ T, request_line METHOD URI v eol = line_of METHOD URI T ++ ['\n']
      ∧ T = "HTTP/".toList ++ v ++ eol.dropLast := by
  rcases heol with h | h <;> subst h <;>
    exact ⟨_, by simp [request_line, line_of], rfl⟩

theorem request_line_tail (v eol : CStr) (hv : ∀ c ∈ v, c ≠ '\n') (heol : IsEol eol) :
    ∀ c ∈ "HTTP/".toList ++ v ++ eol.dropLast, c ≠ '\n' := by
  intro c hc
  rcases List.mem_append.1 hc with hc | hc
  · rcases List.mem_append.1 hc with hc | hc
    · intro h; rw [h] at hc; revert hc; decide
    · exact hv c hc
  · rcases heol with h | h <;> subst h
    · intro h; rw [h] at hc; revert hc; decide
    · simp at hc

theorem long_line_split (n k : Nat) :
    (accepted [] []
        (request_line "GET".toList (List.replicate (n + k) 'a') "1.0".toList "\r\n".toList)).file
      = ("GET".toList ++ ' ' :: List.replicate n 'a')
        ++ (List.replicate k 'a' ++ " HTTP/1.0\r\n".toList) := by
  simp only [accepted, request_line]
  rw [List.replicate_add]
  simp only [List.append_assoc, List.cons_append]
  rfl

theorem long_line_length (n : Nat) :
    ("GET".toList ++ ' ' :: List.replicate n 'a').length = n + 4 := by
  simp

theorem long_header_split (n : Nat) :
    "Host: ".toList ++ List.replicate (n + 1) 'a'
      = "Host".toList ++ ':' :: ' ' :: (List.replicate n 'a' ++ ['a']) := by
  rw [List.replicate_succ']
  rfl

theorem long_header_length (n : Nat) :
    ("Host: ".toList ++ List.replicate n 'a').length = n + 6 := by
  simp

theorem long_header_bytes (n : Nat) (c : Char) (hc : c ∈ "Host: ".toList ++ List.replicate n 'a') :
    c ≠ '\n' ∧ c ≠ NUL := by
  rcases List.mem_append.1 hc with h | h
  · have hall : ∀ d ∈ "Host: ".toList, d ≠ '\n' ∧ d ≠ NUL := by decide
    exact hall c h
  · rw [List.eq_of_mem_replicate h]; decide

/-! ## Facts about the listing links -/

theorem browse_item_slash (uri e : CStr) (h : uri.getLast? = some '/') :
    browse_item uri e
      = .ok ("<li><a href=\"".toList ++ uri ++ e ++ "\">".toList ++ e
          ++ "</a></li>\n".toList) := by
  unfold browse_item
  rw [h]
  simp

theorem browse_item_no_slash (uri e : CStr) (hne : uri ≠ []) (h : uri.getLast? ≠ some '/') :
    browse_item uri e
      = .ok ("<li><a href=\"".toList ++ uri ++ "/".toList ++ e ++ "\">".toList ++ e
          ++ "</a></li>\n".toList) := by
  unfold browse_item
  cases hl : uri.getLast? with
  | none => exact absurd (List.getLast?_eq_none_iff.1 hl) hne
  | some c =>
    have hc : c ≠ '/' := fun hc => h (by rw [hl, hc])
    simp [hc]

/-! ## Facts about the CGI environment -/

theorem streq_ne_zero (a b : CStr) : streq a b ≠ 0 ↔ a = b := by
  unfold streq
  split <;> simp [*]

/-- One turn of the export loop: the header is forwarded to its variable, or
nothing is done. -/
theorem export_headers_cons (h : Header) (rest : List Header) (env : Env) :
    export_headers (h :: rest) env
      = match forwarded h.name with
        | some V => export_headers rest (setenv env V h.value)
        | none => export_headers rest env := by
  rw [export_headers]
  simp only [streq_ne_zero]
  have f1 : forwarded "Host".toList = some "HTTP_HOST".toList := by decide
  have f2 : forwarded "Connection".toList = some "HTTP_CONNECTION".toList := by decide
  have f3 : forwarded "Accept".toList = some "HTTP_ACCEPT".toList := by decide
  have f4 : forwarded "Accept-Encoding".toList = some "HTTP_ACCEPT_ENCODING".toList := by
    decide
  have f5 : forwarded "Accept-Language".toList = some "HTTP_ACCEPT_LANGUAGE".toList := by
    decide
  have f6 : forwarded "User-Agent".toList = some "HTTP_USER_AGENT".toList := by decide
  by_cases h1 : h.name = "Host".toList
  · rw [if_pos h1, h1, f1]
  · rw [if_neg h1]
    by_cases h2 : h.name = "Connection".toList
    · rw [if_pos h2, h2, f2]
    · rw [if_neg h2]
      by_cases h3 : h.name = "Accept".toList
      · rw [if_pos h3, h3, f3]
      · rw [if_neg h3]
        by_cases h4 : h.name = "Accept-Encoding".toList
        · rw [if_pos h4, h4, f4]
        · rw [if_neg h4]
          by_cases h5 : h.name = "Accept-Language".toList
          · rw [if_pos h5, h5, f5]
          · rw [if_neg h5]
            by_cases h6 : h.name = "User-Agent".toList
            · rw [if_pos h6, h6, f6]
            · rw [if_neg h6]
              have : forwarded h.name = none := by
                have e1 : ("Host".toList == h.name) = false := by simpa using fun e => h1 e.symm
                have e2 : ("Connection".toList == h.name) = false := by
                  simpa using fun e => h2 e.symm
                have e3 : ("Accept".toList == h.name) = false := by
                  simpa using fun e => h3 e.symm
                have e4 : ("Accept-Encoding".toList == h.name) = false := by
                  simpa using fun e => h4 e.symm
                have e5 : ("Accept-Language".toList == h.name) = false := by
                  simpa using fun e => h5 e.symm
                have e6 : ("User-Agent".toList == h.name) = false := by
                  simpa using fun e => h6 e.symm
                simp only [forwarded, allow_list, List.find?_cons, e1, e2, e3, e4, e5, e6,
                  List.find?_nil, Option.map_none']
              rw [this]

/-- A header name is forwarded to the variable the allow-list pairs it with, and
to no other. -/
theorem forwarded_iff (H V : CStr) (hHV : (H, V) ∈ allow_list) (n : CStr) :
    forwarded n = some V ↔ n = H := by
  constructor
  · intro h
    unfold forwarded at h
    obtain ⟨p, hp, hpv⟩ := Option.map_eq_some'.1 h
    have hmem := List.mem_of_find?_eq_some hp
    have hname : p.1 = n := by simpa using List.find?_some hp
    have hinj : ∀ p ∈ allow_list, ∀ q ∈ allow_list, p.2 = q.2 → p.1 = q.1 := by decide
    have := hinj p hmem (H, V) hHV hpv
    rw [← hname, this]
  · intro h
    subst h
    have hall : ∀ q ∈ allow_list, forwarded q.1 = some q.2 := by decide
    exact hall (n, V) hHV

/-- After the export loop a forwarded variable holds the value of the last header
of its name, and keeps its old value when there is no such header. -/
theorem getenv_export_headers_forwarded (H V : CStr) (hHV : (H, V) ∈ allow_list)
    (hs : List Header) :
    ∀ env : Env, getenv (export_headers hs env) V
      = match last_header hs H with
        | some v => some v
        | none => getenv env V := by
  induction hs with
  | nil => intro env; rfl
  | cons h hs ih =>
    intro env
    rw [export_headers_cons]
    unfold last_header
    cases hf : forwarded h.name with
    | none =>
      have hne : h.name ≠ H := fun e => by
        rw [(forwarded_iff H V hHV h.name).2 e] at hf
        cases hf
      dsimp only
      rw [ih env]
      cases last_header hs H with
      | some v => rfl
      | none => simp [hne]
    | some V' =>
      dsimp only
      rw [ih (setenv env V' h.value)]
      cases last_header hs H with
      | some v => rfl
      | none =>
        dsimp only
        by_cases e : h.name = H
        · have : V' = V := by
            have := (forwarded_iff H V hHV h.name).2 e
            rw [hf] at this
            exact Option.some.inj this
          rw [this, getenv_setenv_same, if_pos e]
        · have : V ≠ V' := by
            intro hv
            rw [← hv] at hf
            exact e ((forwarded_iff H V hHV h.name).1 hf)
          rw [getenv_setenv_other _ _ _ _ this, if_neg e]

/-- Headers whose names are not on the allow-list can be left out: the export loop
gives the same environment. -/
theorem export_headers_filter (hs : List Header) :
    ∀ env : Env, export_headers (hs.filter (fun h => (forwarded h.name).isSome)) env
      = export_headers hs env := by
  induction hs with
  | nil => intro env; rfl
  | cons h hs ih =>
    intro env
    rw [export_headers_cons h hs env]
    cases hf : forwarded h.name with
    | none =>
      rw [List.filter_cons_of_neg (by simp [hf])]
      exact ih env
    | some V =>
      rw [List.filter_cons_of_pos (by simp [hf]), export_headers_cons, hf]
      exact ih _

theorem forwarded_isSome_iff (n : CStr) :
    (forwarded n).isSome = true ↔ n ∈ allow_list.map Prod.fst := by
  constructor
  · intro h
    obtain ⟨V, hV⟩ := Option.isSome_iff_exists.1 h
    unfold forwarded at hV
    obtain ⟨p, hp, -⟩ := Option.map_eq_some'.1 hV
    have hmem := List.mem_of_find?_eq_some hp
    have hname : p.1 = n := by simpa using List.find?_some hp
    exact List.mem_map.2 ⟨p, hmem, hname⟩
  · intro h
    obtain ⟨p, hp, hpn⟩ := List.mem_map.1 h
    have hall : ∀ q ∈ allow_list, (forwarded q.1).isSome = true := by decide
    rw [← hpn]
    exact hall p hp

/-- What the export step returns when the four string fields are set. -/
theorem cgi_export_eq (w : World) (env : Env) (r : Request) (query method uri path : CStr)
    (hq : r.query = some query) (hm : r.method = some method) (hu : r.uri = some uri)
    (hp : r.path = some path) :
    cgi_export w env r = .ok (export_headers r.headers
      (setenv (setenv (setenv (setenv (setenv (setenv (setenv (setenv env
        "DOCUMENT_ROOT".toList w.RootPath) "QUERY_STRING".toList query)
        "REMOTE_ADDR".toList r.host) "REMOTE_PORT".toList r.port)
        "REQUEST_METHOD".toList method) "REQUEST_URI".toList uri)
        "SCRIPT_FILENAME".toList path) "SERVER_PORT".toList w.Port)) := by
  simp only [cgi_export, hq, hm, hu, hp]

/-- The eight `setenv` calls on request fields leave every other variable as it
was. -/
theorem getenv_request_setenvs (env : Env) (k v1 v2 v3 v4 v5 v6 v7 v8 : CStr)
    (hk : k ∉ request_names) :
    getenv (setenv (setenv (setenv (setenv (setenv (setenv (setenv (setenv env
        "DOCUMENT_ROOT".toList v1) "QUERY_STRING".toList v2)
        "REMOTE_ADDR".toList v3) "REMOTE_PORT".toList v4)
        "REQUEST_METHOD".toList v5) "REQUEST_URI".toList v6)
        "SCRIPT_FILENAME".toList v7) "SERVER_PORT".toList v8) k = getenv env k := by
  simp only [request_names, List.mem_cons, List.mem_singleton, not_or, List.not_mem_nil,
    or_false] at hk
  obtain ⟨h1, h2, h3, h4, h5, h6, h7, h8⟩ := hk
  rw [getenv_setenv_other _ _ _ _ h8, getenv_setenv_other _ _ _ _ h7,
    getenv_setenv_other _ _ _ _ h6, getenv_setenv_other _ _ _ _ h5,
    getenv_setenv_other _ _ _ _ h4, getenv_setenv_other _ _ _ _ h3,
    getenv_setenv_other _ _ _ _ h2, getenv_setenv_other _ _ _ _ h1]

/-! ## Facts about request lines without a line terminator -/

theorem fgetsAux_eof (l : List Char) (hl : ∀ c ∈ l, c ≠ '\n') :
    ∀ n : Nat, l.length ≤ n → fgetsAux n l = (l, []) := by
  induction l with
  | nil => intro n _; cases n <;> rfl
  | cons a l ih =>
    intro n hn
    cases n with
    | zero => exact absurd hn (by simp)
    | succ n =>
      have ha : a ≠ '\n' := hl a (List.mem_cons_self _ _)
      have hl2 : ∀ c ∈ l, c ≠ '\n' := fun c hc => hl c (List.mem_cons_of_mem _ hc)
      have hn2 : l.length ≤ n := by simpa using hn
      simp [fgetsAux, ha, ih hl2 n hn2]

/-- `fgets` on a stream that ends, without a line feed, before the buffer is full
stores all of it. -/
theorem fgets_eof (l : List Char) (hl : ∀ c ∈ l, c ≠ '\n') (hne : l ≠ [])
    (hlen : l.length < BUFSIZ) : fgets BUFSIZ l = some (l, []) := by
  have h := fgetsAux_eof l hl (BUFSIZ - 1) (by omega)
  cases l with
  | nil => exact absurd rfl hne
  | cons a l => exact congrArg some h

/-- A request line without its end, `M U` as `fgets` stored it (the URI without
`?`): it is accepted, with the method `M` and the URI `U`. -/
theorem parse_request_method_partial (r : Request) (M U rest : List Char)
    (hM : IsToken M) (hU : IsToken U) (hq : '?' ∉ U)
    (hf : fgets BUFSIZ r.file = some (M ++ ' ' :: U, rest)) :
    parse_request_method r
      = .ok (0, { r with file := rest, method := some M, query := some [' '],
                         uri := some U }) := by
  have hUq : ∀ c ∈ U, c ≠ NUL ∧ c ∉ ['?'] := by
    intro c hc
    refine ⟨(hU.2 c hc).1, ?_⟩
    intro h
    rw [List.mem_singleton] at h
    exact hq (h ▸ hc)
  have e1 : strtok ((M ++ ' ' :: U) ++ [NUL]) 0 (some 0) WHITESPACE
      = (some 0, M ++ NUL :: (U ++ [NUL]), M.length + 1) := by
    have := strtok_delim [] M (U ++ [NUL]) ' ' WHITESPACE 0 (some 0) rfl hM.1 hM.2
      space_mem_WHITESPACE space_ne_NUL
    simpa [List.append_assoc] using this
  have e2 : strtok (M ++ NUL :: (U ++ [NUL])) (M.length + 1) none WHITESPACE
      = (some (M.length + 1), M ++ NUL :: (U ++ [NUL]), M.length + 1 + U.length) := by
    have := strtok_last (M ++ [NUL]) U [] WHITESPACE (M.length + 1) none (by simp) hU.1 hU.2
    simpa [List.append_assoc] using this
  have e3 : strtok (M ++ NUL :: (U ++ [NUL])) (M.length + 1 + U.length) (some (M.length + 1))
        ['?']
      = (some (M.length + 1), M ++ NUL :: (U ++ [NUL]), M.length + 1 + U.length) := by
    have := strtok_last (M ++ [NUL]) U [] ['?'] (M.length + 1 + U.length)
      (some (M.length + 1)) (by simp) hU.1 hUq
    simpa [List.append_assoc] using this
  have e4 : strtok (M ++ NUL :: (U ++ [NUL])) (M.length + 1 + U.length) none WHITESPACE
      = (none, M ++ NUL :: (U ++ [NUL]), M.length + 1 + U.length) := by
    have := strtok_end (M ++ NUL :: U) [] WHITESPACE (M.length + 1 + U.length) none
      (by simp; omega)
    have hlen2 : (M ++ NUL :: U).length = M.length + 1 + U.length := by
      simp; omega
    rw [hlen2] at this
    simpa [List.append_assoc] using this
  have c1 : cstr (M ++ NUL :: (U ++ [NUL])) 0 = M :=
    cstr_zero_token M _ (fun c hc => (hM.2 c hc).1)
  have c2 : cstr (M ++ NUL :: (U ++ [NUL])) (M.length + 1) = U := by
    have := cstr_token (M ++ [NUL]) U [] (fun c hc => (hU.2 c hc).1)
    simpa [List.append_assoc] using this
  unfold parse_request_method
  rw [hf]
  simp only [e1, e2, e3, e4, c1, c2]

theorem partial_line_no_newline (M U : List Char) (hM : IsToken M) (hU : IsToken U) :
    ∀ c ∈ M ++ ' ' :: U, c ≠ '\n' := by
  intro c hc
  simp only [List.mem_append, List.mem_cons] at hc
  rcases hc with hc | hc | hc
  · intro h; exact (hM.2 c hc).2 (by rw [h]; decide)
  · rw [hc]; decide
  · intro h; exact (hU.2 c hc).2 (by rw [h]; decide)

/-! ## Facts about the header list -/

/-- When `parse_request_headers` returns 0 on a request whose header list was
empty, the list has one node per buffer the loop worked on, in the order read,
each the header the body of the loop makes of that buffer. -/
theorem parse_request_headers_buffers (r r' : Request) (hr : r.headers = [])
    (h : parse_request_headers r = .ok (0, r')) :
    (header_lines (r.file.length + 1) r.file).map parse_header_line
      = r'.headers.map (fun h => Except.ok (some h)) := by
  have hloop : parse_request_headers_loop (r.file.length + 1) false r = .ok (false, r') := by
    unfold parse_request_headers at h
    split at h
    · cases h
    · cases h
    · rename_i r2 heq
      split at h
      · cases h
      · cases h; exact heq
  have := headers_loop_collects _ false r r' (Or.inl hr) hloop
  rw [hr, List.map_nil, List.nil_append] at this
  exact this.symm

/-- On a block of whole lines longer than two bytes, followed by a line of at most
two bytes or the end of the stream, the buffers the loop works on are the lines. -/
theorem header_lines_of_lines (ls : List (List Char)) :
    ∀ (fuel : Nat) (rest : List Char), ls.length < fuel →
      (∀ l ∈ ls, IsLine l ∧ 2 < strlen (l ++ [NUL]) 0) → ends_at_once rest →
      header_lines fuel (ls.flatten ++ rest) = ls.map (fun l => l ++ [NUL]) := by
  induction ls with
  | nil =>
    intro fuel rest hfuel _ hend
    cases fuel with
    | zero => rfl
    | succ fuel =>
      rw [List.flatten_nil, List.nil_append]
      unfold ends_at_once at hend
      unfold header_lines
      cases hf : fgets BUFSIZ rest with
      | none => rfl
      | some p =>
        obtain ⟨line, rest2⟩ := p
        rw [hf] at hend
        have : ¬ strlen (line ++ [NUL]) 0 > 2 := by
          have : strlen (line ++ [NUL]) 0 ≤ 2 := hend
          omega
        simp only [this, if_false, List.map_nil]
  | cons l ls ih =>
    intro fuel rest hfuel hls hend
    cases fuel with
    | zero => exact absurd hfuel (Nat.not_lt_zero _)
    | succ fuel =>
      have hl := hls l (List.mem_cons_self _ _)
      have hls' : ∀ l' ∈ ls, IsLine l' ∧ 2 < strlen (l' ++ [NUL]) 0 :=
        fun l' h' => hls l' (List.mem_cons_of_mem _ h')
      have hfuel' : ls.length < fuel := by simpa using hfuel
      rw [List.flatten_cons, List.append_assoc]
      unfold header_lines
      rw [fgets_IsLine l _ hl.1]
      simp only [hl.2, if_true, List.map_cons]
      rw [ih fuel rest hfuel' hls' hend]

/-- Two buffers that give a header each and then the end of the headers: the
request is accepted with these two headers, in this order. -/
theorem parse_request_headers_two (r : Request) (l1 rest1 l2 rest2 : List Char) (h1 h2 : Header)
    (hr : r.headers = []) (hf1 : fgets BUFSIZ r.file = some (l1, rest1))
    (hlen1 : 2 < strlen (l1 ++ [NUL]) 0) (hp1 : parse_header_line (l1 ++ [NUL]) = .ok (some h1))
    (hf2 : fgets BUFSIZ rest1 = some (l2, rest2))
    (hlen2 : 2 < strlen (l2 ++ [NUL]) 0) (hp2 : parse_header_line (l2 ++ [NUL]) = .ok (some h2))
    (hend : ends_at_once rest2) :
    ∃ r', parse_request_headers r = .ok (0, r') ∧ r'.headers = [h1, h2] := by
  have hs1 := fgets_shorter r.file l1 rest1 hf1
  have hs2 := fgets_shorter rest1 l2 rest2 hf2
  obtain ⟨k, hk⟩ : ∃ k, r.file.length + 1 = k + 1 + 1 + 1 :=
    ⟨r.file.length - 2, by omega⟩
  unfold parse_request_headers
  rw [hk]
  unfold parse_request_headers_loop
  rw [hf1]
  simp only [hlen1, if_true, hp1, hr]
  unfold parse_request_headers_loop
  rw [hf2]
  simp only [hlen2, if_true, hp2]
  simp only [List.cons_ne_nil, if_false, List.singleton_append]
  unfold parse_request_headers_loop
  unfold ends_at_once at hend
  cases hf3 : fgets BUFSIZ rest2 with
  | none => exact ⟨{ r with file := rest2, headers := [h1, h2] }, by simp, rfl⟩
  | some q =>
    obtain ⟨l3, rest3⟩ := q
    rw [hf3] at hend
    have : ¬ strlen (l3 ++ [NUL]) 0 > 2 := by
      have : strlen (l3 ++ [NUL]) 0 ≤ 2 := hend
      omega
    simp only [this, if_false]
    exact ⟨{ r with file := rest3, headers := [h1, h2] }, by simp, rfl⟩

/-! ## Facts about the servers -/

/-- `accept_request` never returns NULL: each of its failure paths calls `fclose`
on the null stream first. -/
theorem accept_request_not_NULL (a : Accept) : accept_request a ≠ .ok none := by
  cases a <;> simp [accept_request, free_request]

/-- A connection that is accepted gives the request of `accepted`. -/
theorem accept_request_connection (host port : CStr) (input : List Char) :
    accept_request (Accept.connection host port input) = .ok (some (accepted host port input)) :=
  rfl

/-- `single_server` never returns: the test `!r` is never true. -/
theorem single_server_never_returns (w : World) (accepts : List Accept) :
    ∀ (env : Env) (code : Int), (single_server w env accepts).2 ≠ Stop.returned code := by
  induction accepts with
  | nil => intro env code; simp [single_server]
  | cons a accepts ih =>
    intro env code
    rw [single_server]
    cases ha : accept_request a with
    | error f => simp
    | ok o =>
      cases o with
      | none => exact absurd ha (accept_request_not_NULL a)
      | some r =>
        dsimp only
        cases handle_request w env r with
        | error f => simp
        | ok p =>
          obtain ⟨s, r', env'⟩ := p
          simp only [free_request, if_true]
          exact ih env' code

/-- `forking_server` never returns. -/
theorem forking_server_never_returns (w : World) (env : Env) (attempts : List (Accept × Int))
    (code : Int) : (forking_server w env attempts).2 ≠ Stop.returned code := by
  induction attempts with
  | nil => simp [forking_server]
  | cons a attempts ih =>
    obtain ⟨a, pid⟩ := a
    rw [forking_server]
    cases ha : accept_request a with
    | error f => simp
    | ok o =>
      cases o with
      | none => exact ih
      | some r =>
        dsimp only
        by_cases h1 : pid < 0
        · simp only [if_pos h1, free_request, if_true]; exact ih
        · rw [if_neg h1]
          by_cases h2 : pid = 0
          · rw [if_pos h2]
            cases handle_request w env r with
            | error f => simp
            | ok p => simp [free_request]
          · simp only [if_neg h2, free_request, if_true]; exact ih

/-- When `fork` fails, `forking_server` frees the request, handles nothing and
goes on with the next attempt. -/
theorem forking_server_fork_failure (w : World) (env : Env) (host port : CStr)
    (input : List Char) (pid : Int) (rest : List (Accept × Int)) (hpid : pid < 0) :
    forking_server w env ((Accept.connection host port input, pid) :: rest)
      = (Event.free (accepted host port input) :: (forking_server w env rest).1,
          (forking_server w env rest).2) := by
  rw [forking_server]
  simp only [accept_request, if_pos hpid, free_request, if_true]
  rfl

/-- While connections are accepted and handled to the end, `single_server` handles
and frees each request in order, and stays in its loop. -/
theorem single_server_connections (w : World) (conns : List (CStr × CStr × List Char)) :
    ∀ env : Env,
      (single_server w env
          (conns.map (fun c => Accept.connection c.1 c.2.1 c.2.2))).2 = Stop.accepting →
      (single_server w env (conns.map (fun c => Accept.connection c.1 c.2.1 c.2.2))).1
        = (conns.map (fun c => [Event.handle (accepted c.1 c.2.1 c.2.2),
            Event.free (accepted c.1 c.2.1 c.2.2)])).flatten := by
  induction conns with
  | nil => intro env _; rfl
  | cons c conns ih =>
    intro env
    rw [List.map_cons, single_server]
    simp only [accept_request]
    cases handle_request w env (accepted c.1 c.2.1 c.2.2) with
    | error f => intro h; simp at h
    | ok p =>
      obtain ⟨s, r', env'⟩ := p
      simp only [free_request, if_true]
      intro h
      rw [ih env' h]
      rfl

/-! ## Theorems -/

/-- C1 (failing input): with RootPath `/srv/www` and URI `/../../etc/passwd`,
`determine_request_path` does not return NULL: it returns the concatenation
`/srv/www/../../etc/passwd`, whose canonical form is `/etc/passwd`, a path that
is neither the root nor below it. -/
theorem determine_request_path_escapes_root (realpath : CStr → Option CStr) :
    determine_request_path realpath "/srv/www".toList "/../../etc/passwd".toList
        = some "/srv/www/../../etc/passwd".toList
      ∧ canonical "/srv/www/../../etc/passwd".toList = "/etc/passwd".toList
      ∧ ¬ withinRoot "/srv/www".toList "/etc/passwd".toList := by
  refine ⟨?_, ?_, ?_⟩
  · exact determine_request_path_eq realpath _ _
  · decide
  · decide

/-- C3 (failing input): on a request line made of a line feed only (or of a space
and a line feed) `strtok` finds no method, and `parse_request_method` hands the
null pointer to `strdup`: no -1 is returned and no error page is written. The
request line `GET` with no URI is rejected with -1 and
`HTTP_STATUS_BAD_REQUEST`. -/
theorem blank_request_line_faults (w : World) (env : Env) (host port : CStr) :
    parse_request_method (accepted host port "\n".toList) = .error Fault.nullDeref
      ∧ parse_request (accepted host port "\n".toList) = .error Fault.nullDeref
      ∧ handle_request w env (accepted host port "\n".toList) = .error Fault.nullDeref
      ∧ handle_request w env (accepted host port " \n".toList) = .error Fault.nullDeref
      ∧ (parse_request (accepted host port "GET\r\n".toList)).map (fun x => x.1) = .ok (-1)
      ∧ (handle_request w env (accepted host port "GET\r\n".toList)).map (fun x => x.1)
          = .ok Status.HTTP_STATUS_BAD_REQUEST := by
  refine ⟨rfl, rfl, rfl, rfl, rfl, rfl⟩

/-- C6 (counterexample): for `GET / HTTP/1.0` the query stored is not the empty
string, and the export step of `handle_cgi_request` does not set `QUERY_STRING`
to the empty string. -/
theorem absent_query_not_empty :
    ∃ r', parse_request_method
          (accepted [] [] (request_line "GET".toList "/".toList "1.0".toList "\r\n".toList))
        = .ok (0, r') ∧ r'.query ≠ some []
      ∧ ∀ (w : World) (p : CStr), ∃ env', cgi_export w [] { r' with path := some p } = .ok env'
          ∧ getenv env' "QUERY_STRING".toList ≠ some [] := by
  refine ⟨_, rfl, by decide, ?_⟩
  intro w p
  obtain ⟨env', h1, h2⟩ := cgi_export_query w []
    { (accepted [] [] []) with method := some "GET".toList, query := some [' '],
                               uri := some "/".toList, path := some p }
    [' '] "GET".toList "/".toList p rfl rfl rfl rfl
  exact ⟨env', h1, by rw [h2]; decide⟩

/-- C6 (amended): for every request line `METHOD URI HTTP/<v>` that fits the line
buffer and whose URI contains no `?`, `parse_request_method` returns 0 and leaves
the query set to the one-byte string `" "`, and the export step of
`handle_cgi_request` then sets `QUERY_STRING` to `" "`. -/
theorem absent_query_is_space (r : Request) (METHOD URI v eol rest : CStr)
    (hM : IsToken METHOD) (hU : IsToken URI) (hq : '?' ∉ URI) (hv : ∀ c ∈ v, c ≠ '\n')
    (heol : IsEol eol) (hlen : (request_line METHOD URI v eol).length < BUFSIZ)
    (hfile : r.file = request_line METHOD URI v eol ++ rest) :
    ∃ r', parse_request_method r = .ok (0, r') ∧ r'.query = some [' ']
      ∧ ∀ (w : World) (env : Env) (p : CStr) (hs : List Header) (f : List Char),
          ∃ env', cgi_export w env { r' with path := some p, headers := hs, file := f }
              = .ok env'
            ∧ getenv env' "QUERY_STRING".toList = some [' '] := by
  obtain ⟨T, hline, hT⟩ := request_line_eq METHOD URI v eol heol
  have hTn : ∀ c ∈ T, c ≠ '\n' := hT ▸ request_line_tail v eol hv heol
  have hlen' : (line_of METHOD URI T).length + 1 < BUFSIZ := by
    rw [hline] at hlen
    simpa using hlen
  have hfile' : r.file = line_of METHOD URI T ++ '\n' :: rest := by
    rw [hfile, hline]; simp
  have h := parse_request_method_no_query r METHOD [] URI T rest hM hU (by simp) hq hTn
    hlen' hfile'
  refine ⟨_, h, rfl, ?_⟩
  intro w env p hs f
  exact cgi_export_query w env _ [' '] METHOD URI p rfl rfl rfl rfl

/-- C6 (witness): the request line `GET / HTTP/1.1`. -/
theorem absent_query_is_space_witness :
    ∃ r', parse_request_method (accepted [] []
          (request_line "GET".toList "/".toList "1.1".toList "\r\n".toList ++ []))
        = .ok (0, r') ∧ r'.query = some [' ']
      ∧ ∀ (w : World) (env : Env) (p : CStr) (hs : List Header) (f : List Char),
          ∃ env', cgi_export w env { r' with path := some p, headers := hs, file := f }
              = .ok env'
            ∧ getenv env' "QUERY_STRING".toList = some [' '] :=
  absent_query_is_space _ "GET".toList "/".toList "1.1".toList "\r\n".toList []
    (by decide) (by decide) (by decide) (by decide) (by decide) (by decide) rfl

/-- C8: when header reading ends before a header is collected (end of stream or
a blank line at once), `parse_request_headers` returns -1 and so does
`parse_request`; and when `parse_request` returns 0 the header list is not
empty. -/
theorem at_least_one_header :
    (∀ r : Request, r.headers = [] → ends_at_once r.file →
        ∃ r', parse_request_headers r = .ok (-1, r'))
      ∧ (∀ (r r1 : Request) (st : Int), r.headers = [] →
          parse_request_method r = .ok (st, r1) → ends_at_once r1.file →
          ∃ r', parse_request r = .ok (-1, r'))
      ∧ (∀ r r' : Request, parse_request r = .ok (0, r') → r'.headers ≠ []) := by
  refine ⟨parse_request_headers_ends_at_once, ?_, ?_⟩
  · intro r r1 st hr hm hend
    have hr1 : r1.headers = [] := by
      rw [parse_request_method_headers r r1 st hm, hr]
    obtain ⟨r2, h2⟩ := parse_request_headers_ends_at_once r1 hr1 hend
    unfold parse_request
    rw [hm]
    by_cases hst : st < 0
    · refine ⟨r1, ?_⟩
      simp only [hst, if_true]
    · refine ⟨r2, ?_⟩
      simp only [hst, if_false, h2]
      rfl
  · intro r r' h
    unfold parse_request at h
    cases hm : parse_request_method r with
    | error f => rw [hm] at h; cases h
    | ok p =>
      obtain ⟨st, r1⟩ := p
      rw [hm] at h
      dsimp only at h
      by_cases hst : st < 0
      · rw [if_pos hst] at h; cases h
      · rw [if_neg hst] at h
        cases hh : parse_request_headers r1 with
        | error f => rw [hh] at h; cases h
        | ok q =>
          obtain ⟨st1, r2⟩ := q
          rw [hh] at h
          dsimp only at h
          by_cases hst1 : st1 < 0
          · rw [if_pos hst1] at h; cases h
          · rw [if_neg hst1] at h
            cases h
            exact parse_request_headers_zero r1 r' st1 hh hst1

/-- C8 (witness): a request line followed by the blank line at once, a request line
followed by the end of the stream, and a request with one header. -/
theorem at_least_one_header_witness :
    (∃ r', parse_request (accepted [] [] "GET / HTTP/1.0\r\n\r\n".toList) = .ok (-1, r'))
      ∧ (∃ r', parse_request_headers (accepted [] [] []) = .ok (-1, r'))
      ∧ (parse_request (accepted [] [] "GET / HTTP/1.0\r\nHost: a\r\n\r\n".toList)).map
            (fun x => x.2.headers) = .ok [{ name := "Host".toList, value := "a\r".toList }]
      ∧ [({ name := "Host".toList, value := "a\r".toList } : Header)] ≠ [] :=
  ⟨at_least_one_header.2.1 (accepted [] [] "GET / HTTP/1.0\r\n\r\n".toList)
      { accepted [] [] "\r\n".toList with
          method := some "GET".toList, uri := some "/".toList, query := some [' '] }
      0 rfl rfl (by decide),
    at_least_one_header.1 (accepted [] [] []) rfl (by decide),
    rfl,
    at_least_one_header.2.2 (accepted [] [] "GET / HTTP/1.0\r\nHost: a\r\n\r\n".toList)
      { accepted [] [] [] with
          method := some "GET".toList, uri := some "/".toList, query := some [' '],
          headers := [{ name := "Host".toList, value := "a\r".toList }] } rfl⟩

/-- C5: once the request is parsed and its path resolved, `handle_request` is
decided by `lstat` and the two `access` calls, in this order: `lstat` fails, the
error page of `HTTP_STATUS_NOT_FOUND`; a directory, `handle_browse_request`;
otherwise executable, `handle_cgi_request`; otherwise readable,
`handle_file_request`; otherwise `HTTP_STATUS_BAD_REQUEST` and nothing written. -/
theorem dispatch_by_file_type (w : World) (env : Env) (r r1 : Request) (uri path : CStr)
    (hparse : parse_request r = .ok (0, r1)) (huri : r1.uri = some uri)
    (hpath : determine_request_path w.realpath w.RootPath uri = some path) :
    (w.lstat path = none →
        handle_request w env r = .ok (Status.HTTP_STATUS_NOT_FOUND,
          (handle_error { r1 with path := some path } Status.HTTP_STATUS_NOT_FOUND).2, env))
      ∧ (w.lstat path = some true →
        handle_request w env r
          = (handle_browse_request w { r1 with path := some path }).map
              (fun x => (x.1, x.2, env)))
      ∧ (w.lstat path = some false → w.access_X_OK path = true →
        handle_request w env r = handle_cgi_request w env { r1 with path := some path })
      ∧ (w.lstat path = some false → w.access_X_OK path = false →
          w.access_R_OK path = true →
        handle_request w env r
          = (handle_file_request w { r1 with path := some path }).map
              (fun x => (x.1, x.2, env)))
      ∧ (w.lstat path = some false → w.access_X_OK path = false →
          w.access_R_OK path = false →
        handle_request w env r
          = .ok (Status.HTTP_STATUS_BAD_REQUEST, { r1 with path := some path }, env)) := by
  have h0 : ¬ ((0 : Int) < 0) := by decide
  refine ⟨?_, ?_, ?_, ?_, ?_⟩
  · intro hl
    unfold handle_request
    simp only [hparse, h0, if_false, huri, hpath, hl]
    rfl
  · intro hl
    unfold handle_request
    simp only [hparse, h0, if_false, huri, hpath, hl, if_true]
    generalize handle_browse_request w _ = res
    cases res <;> rfl
  · intro hl hx
    unfold handle_request
    simp only [hparse, h0, if_false, huri, hpath, hl, hx, if_true]
    simp
  · intro hl hx hr
    unfold handle_request
    simp only [hparse, h0, if_false, huri, hpath, hl, hx, hr, if_true]
    simp only [Bool.false_eq_true, if_false]
    generalize handle_file_request w _ = res
    cases res <;> rfl
  · intro hl hx hr
    unfold handle_request
    simp only [hparse, h0, if_false, huri, hpath, hl, hx, hr]
    simp

/-- C5 (witness): in the sample world the directory `/docs/`, which is also
executable, is browsed. -/
theorem dispatch_by_file_type_witness :
    sample_world.lstat "/srv/www/docs/".toList = some true
      ∧ sample_world.access_X_OK "/srv/www/docs/".toList = true
      ∧ handle_request sample_world []
            (accepted [] [] "GET /docs/ HTTP/1.0\r\nHost: a\r\n\r\n".toList)
          = (handle_browse_request sample_world
              { parsed "GET".toList "/docs/".toList [' ']
                  [{ name := "Host".toList, value := "a\r".toList }] with
                path := some "/srv/www/docs/".toList }).map (fun x => (x.1, x.2, [])) :=
  ⟨by decide, by decide,
    (dispatch_by_file_type sample_world []
      (accepted [] [] "GET /docs/ HTTP/1.0\r\nHost: a\r\n\r\n".toList)
      (parsed "GET".toList "/docs/".toList [' ']
        [{ name := "Host".toList, value := "a\r".toList }])
      "/docs/".toList "/srv/www/docs/".toList rfl rfl rfl).2.1 (by decide)⟩

/-- C7 (failing input): of the header line
`User-Agent: Mozilla/5.0 (X11; Linux x86_64; rv:29.0) Gecko/20100101 Firefox/29.0`
the value stored is `Mozilla/5.0`, the first word of the remainder; and of
`Host: localhost:8888` ended by CR LF the value stored keeps the CR. -/
theorem header_value_is_first_word :
    parse_header_line
        ("User-Agent: Mozilla/5.0 (X11; Linux x86_64; rv:29.0) Gecko/20100101 Firefox/29.0\n".toList
          ++ [NUL])
      = .ok (some { name := "User-Agent".toList, value := "Mozilla/5.0".toList })
      ∧ (parse_request_headers (accepted [] []
            ("User-Agent: Mozilla/5.0 (X11; Linux x86_64; rv:29.0) Gecko/20100101 Firefox/29.0\n".toList
              ++ "\n".toList))).map (fun x => (x.1, x.2.headers))
          = .ok (0, [{ name := "User-Agent".toList, value := "Mozilla/5.0".toList }])
      ∧ "Mozilla/5.0".toList
          ≠ "Mozilla/5.0 (X11; Linux x86_64; rv:29.0) Gecko/20100101 Firefox/29.0".toList
      ∧ parse_header_line ("Host: localhost:8888\r\n".toList ++ [NUL])
          = .ok (some { name := "Host".toList, value := "localhost:8888\r".toList }) := by
  refine ⟨rfl, rfl, by decide, rfl⟩

set_option maxRecDepth 20000 in
/-- C10 (counterexample): for the directory of the sample world that holds exactly
`a.txt` and `b.html`, requested as `/docs/`, the listing has three hyperlinks:
`/docs/..`, `/docs/a.txt` and `/docs/b.html`. -/
theorem listing_has_parent_link :
    ∃ r', handle_browse_request sample_world
          { parsed "GET".toList "/docs/".toList [' '] [] with
            path := some "/srv/www/docs/".toList }
        = .ok (Status.HTTP_STATUS_OK, r')
      ∧ r'.out = ("HTTP/1.0 200 OK\nContent-Type: text/html\n\r\n<ul type=\"square\">"
          ++ "<li><a href=\"/docs/..\">..</a></li>\n"
          ++ "<li><a href=\"/docs/a.txt\">a.txt</a></li>\n"
          ++ "<li><a href=\"/docs/b.html\">b.html</a></li>\n</ul>").toList
      ∧ count_occurrences "<a href=".toList r'.out = 3 := by
  refine ⟨_, rfl, rfl, by decide⟩

/-- C10 (amended): for every directory that can be scanned and whose children all
sort after `..`, requested with a non-empty URI, `handle_browse_request` returns
`HTTP_STATUS_OK` and writes the header and a list with exactly one hyperlink for
`..` followed by one hyperlink per child, in ascending name order. -/
theorem listing_content (w : World) (r : Request) (path uri : CStr) (cs : List CStr)
    (hp : r.path = some path) (hu : r.uri = some uri) (hne : uri ≠ [])
    (hscan : w.children path = some cs) (hnames : ∀ c ∈ cs, strcmp ['.', '.'] c = .lt) :
    ∃ links, handle_browse_request w r
        = .ok (Status.HTTP_STATUS_OK,
            r.write ("HTTP/1.0 200 OK\nContent-Type: text/html\n\r\n<ul type=\"square\">".toList
              ++ (links.map (list_item uri)).flatten ++ "</ul>".toList))
      ∧ links = ['.', '.'] :: cs.insertionSort alphasort
      ∧ (cs.insertionSort alphasort).Perm cs
      ∧ links.Sorted alphasort := by
  have hs : scandir w path = some (['.'] :: ['.', '.'] :: cs.insertionSort alphasort) := by
    unfold scandir
    rw [hscan, Option.map_some', scan_order cs hnames]
  refine ⟨_, handle_browse_request_eq w r path uri _ hp hu hne hs, rfl,
    List.perm_insertionSort alphasort cs, ?_⟩
  haveI : IsTotal CStr alphasort := ⟨alphasort_total⟩
  haveI : IsTrans CStr alphasort := ⟨fun a b c => alphasort_trans a b c⟩
  have := List.sorted_insertionSort alphasort (['.'] :: ['.', '.'] :: cs)
  rw [scan_order cs hnames] at this
  exact this.tail

/-- C10 (witness): the directory `/docs/` of the sample world. -/
theorem listing_content_witness :
    (∀ c ∈ ["b.html".toList, "a.txt".toList], strcmp ['.', '.'] c = .lt)
      ∧ ∃ links, handle_browse_request sample_world
            { parsed "GET".toList "/docs/".toList [' '] [] with
              path := some "/srv/www/docs/".toList }
          = .ok (Status.HTTP_STATUS_OK,
              Request.write { parsed "GET".toList "/docs/".toList [' '] [] with
                  path := some "/srv/www/docs/".toList }
                ("HTTP/1.0 200 OK\nContent-Type: text/html\n\r\n<ul type=\"square\">".toList
                  ++ (links.map (list_item "/docs/".toList)).flatten ++ "</ul>".toList))
        ∧ links = ['.', '.'] :: ["b.html".toList, "a.txt".toList].insertionSort alphasort
        ∧ (["b.html".toList, "a.txt".toList].insertionSort alphasort).Perm
            ["b.html".toList, "a.txt".toList]
        ∧ links.Sorted alphasort :=
  ⟨by decide,
    listing_content sample_world _ "/srv/www/docs/".toList "/docs/".toList
      ["b.html".toList, "a.txt".toList] rfl rfl (by decide) rfl (by decide)⟩

/-- C13: for a non-empty URI, the list item of an entry `e` has the href `u ++ e`
when `u` ends in `/` and `u ++ "/" ++ e` when it does not, so the items for
`/docs` and `/docs/` are the same; and the listing `handle_browse_request` writes
is made of these items, one per entry it emits. -/
theorem one_separator (uri e : CStr) (hne : uri ≠ []) :
    (uri.getLast? = some '/' →
        browse_item uri e
          = .ok ("<li><a href=\"".toList ++ uri ++ e ++ "\">".toList ++ e
              ++ "</a></li>\n".toList))
      ∧ (uri.getLast? ≠ some '/' →
        browse_item uri e
          = .ok ("<li><a href=\"".toList ++ uri ++ "/".toList ++ e ++ "\">".toList ++ e
              ++ "</a></li>\n".toList))
      ∧ browse_item "/docs".toList e = browse_item "/docs/".toList e
      ∧ (∀ (w : World) (r : Request) (path : CStr) (entries : List CStr),
          r.path = some path → r.uri = some uri → scandir w path = some entries →
          ∃ items : List (List Char), handle_browse_request w r
              = .ok (Status.HTTP_STATUS_OK,
                  r.write ("HTTP/1.0 200 OK\nContent-Type: text/html\n\r\n<ul type=\"square\">".toList
                    ++ items.flatten ++ "</ul>".toList))
            ∧ items.map Except.ok = (entries.drop 1).map (browse_item uri)) := by
  refine ⟨browse_item_slash uri e, browse_item_no_slash uri e hne, ?_, ?_⟩
  · rw [browse_item_slash "/docs/".toList e (by decide),
      browse_item_no_slash "/docs".toList e (by decide) (by decide)]
    simp
  · intro w r path entries hp hu hs
    refine ⟨(entries.drop 1).map (list_item uri),
      handle_browse_request_eq w r path uri entries hp hu hne hs, ?_⟩
    rw [List.map_map]
    apply List.map_congr_left
    intro d _
    exact (browse_item_eq uri d hne).symm

/-- C13 (witness): the URI `/docs` and the entry `a.txt`. -/
theorem one_separator_witness :
    "/docs".toList ≠ [] ∧ "/docs".toList.getLast? ≠ some '/'
      ∧ browse_item "/docs".toList "a.txt".toList
          = .ok "<li><a href=\"/docs/a.txt\">a.txt</a></li>\n".toList
      ∧ browse_item "/docs".toList "a.txt".toList = browse_item "/docs/".toList "a.txt".toList :=
  ⟨by decide, by decide,
    (one_separator "/docs".toList "a.txt".toList (by decide)).2.1 (by decide),
    (one_separator "/docs".toList "a.txt".toList (by decide)).2.2.1⟩

/-- C12: when the string fields of the request are set, the export step of
`handle_cgi_request` returns an environment that differs from the starting one
only in the eight request variables and the six `HTTP_` variables; each of the
six holds the value of the last header with the name the allow-list pairs it
with, and keeps its old value when the request has no header of that name;
headers of any other name can be left out without changing the result. -/
theorem cgi_environment_allow_list (w : World) (env : Env) (r : Request)
    (query method uri path : CStr) (hq : r.query = some query) (hm : r.method = some method)
    (hu : r.uri = some uri) (hp : r.path = some path) :
    ∃ env', cgi_export w env r = .ok env'
      ∧ (∀ k, k ∉ request_names → k ∉ forwarded_names → getenv env' k = getenv env k)
      ∧ (∀ H V, (H, V) ∈ allow_list →
          getenv env' V = match last_header r.headers H with
            | some v => some v
            | none => getenv env V)
      ∧ cgi_export w env
          { r with headers := r.headers.filter (fun h => h.name ∈ allow_list.map Prod.fst) }
          = .ok env' := by
  refine ⟨_, cgi_export_eq w env r query method uri path hq hm hu hp, ?_, ?_, ?_⟩
  · intro k hk1 hk2
    rw [getenv_export_headers _ _ _ hk2]
    exact getenv_request_setenvs env k _ _ _ _ _ _ _ _ hk1
  · intro H V hHV
    rw [getenv_export_headers_forwarded H V hHV]
    have hV : V ∉ request_names := by
      have hall : ∀ p ∈ allow_list, p.2 ∉ request_names := by decide
      exact hall (H, V) hHV
    rw [getenv_request_setenvs env V _ _ _ _ _ _ _ _ hV]
  · rw [cgi_export_eq w env
      { r with headers := r.headers.filter (fun h => h.name ∈ allow_list.map Prod.fst) }
      query method uri path hq hm hu hp]
    have hfilter : r.headers.filter (fun h => h.name ∈ allow_list.map Prod.fst)
        = r.headers.filter (fun h => (forwarded h.name).isSome) := by
      apply List.filter_congr
      intro h _
      have := forwarded_isSome_iff h.name
      by_cases hmem : h.name ∈ allow_list.map Prod.fst
      · rw [decide_eq_true hmem, this.2 hmem]
      · rw [decide_eq_false hmem]
        cases hs : (forwarded h.name).isSome with
        | false => rfl
        | true => exact absurd (this.1 hs) hmem
    simp only [hfilter, export_headers_filter]

/-- C12 (witness): a request with two `Host` headers and a header `X-Other`, in an
environment where `HTTP_ACCEPT` and `PATH` are set. -/
theorem cgi_environment_allow_list_witness :
    ∃ env', cgi_export sample_world
          [("PATH".toList, "/bin".toList), ("HTTP_ACCEPT".toList, "old".toList)]
          { parsed "GET".toList "/cgi.sh".toList "q=1".toList
              [{ name := "Host".toList, value := "a".toList },
               { name := "X-Other".toList, value := "b".toList },
               { name := "Host".toList, value := "c".toList }] with
            path := some "/srv/www/cgi.sh".toList } = .ok env'
      ∧ getenv env' "PATH".toList = some "/bin".toList
      ∧ getenv env' "HTTP_HOST".toList = some "c".toList
      ∧ getenv env' "HTTP_ACCEPT".toList = some "old".toList
      ∧ getenv env' "X-Other".toList = none := by
  obtain ⟨env', h, hframe, hfw, -⟩ := cgi_environment_allow_list sample_world
    [("PATH".toList, "/bin".toList), ("HTTP_ACCEPT".toList, "old".toList)]
    { parsed "GET".toList "/cgi.sh".toList "q=1".toList
        [{ name := "Host".toList, value := "a".toList },
         { name := "X-Other".toList, value := "b".toList },
         { name := "Host".toList, value := "c".toList }] with
      path := some "/srv/www/cgi.sh".toList }
    "q=1".toList "GET".toList "/cgi.sh".toList "/srv/www/cgi.sh".toList rfl rfl rfl rfl
  refine ⟨env', h, ?_, ?_, ?_, ?_⟩
  · rw [hframe _ (by decide) (by decide)]; rfl
  · rw [hfw "Host".toList "HTTP_HOST".toList (by decide)]; rfl
  · rw [hfw "Accept".toList "HTTP_ACCEPT".toList (by decide)]; rfl
  · rw [hframe _ (by decide) (by decide)]; rfl

/-- C14 (counterexample): the stream `GET /index.html`, which ends without a line
feed, is accepted with the method `GET` and the URI `/index.html`; and a request
line whose URI is 8190 times `a`, which has no line feed within the 8191 bytes
read, is accepted with the method `GET` and the first 8187 bytes of the URI. -/
theorem unterminated_request_line_accepted :
    ('\n' ∉ "GET /index.html".toList
        ∧ parse_request_method (accepted [] [] "GET /index.html".toList)
          = .ok (0, { accepted [] [] [] with
              method := some "GET".toList, uri := some "/index.html".toList,
              query := some [' '] }))
      ∧ ∃ r', parse_request_method
            (accepted [] []
              (request_line "GET".toList (List.replicate 8190 'a') "1.0".toList "\r\n".toList))
          = .ok (0, r') ∧ r'.method = some "GET".toList
          ∧ r'.uri = some (List.replicate 8187 'a') := by
  refine ⟨⟨by decide, rfl⟩, ?_⟩
  have h := parse_request_method_truncated
    (accepted [] []
      (request_line "GET".toList (List.replicate (8187 + 3) 'a') "1.0".toList "\r\n".toList))
    "GET".toList (List.replicate 8187 'a') (List.replicate 3 'a' ++ " HTTP/1.0\r\n".toList)
    (by decide) (IsToken_replicate 8187 (by decide))
    (fun h => absurd (List.eq_of_mem_replicate h) (by decide))
    ((long_line_length 8187).trans (by decide)) (long_line_split 8187 3)
  exact ⟨_, h, rfl, rfl⟩

/-- C14 (amended): `parse_request_method` returns -1 when no data can be read;
data without a line terminator is not rejected for that: the partial line `M U`
(method and URI tokens, the URI without `?`), cut by the end of the stream or by
the size of the buffer, is accepted with return value 0, method `M` and URI `U`. -/
theorem unterminated_request_line (r : Request) :
    (r.file = [] → parse_request_method r = .ok (-1, r))
      ∧ (∀ M U rest : List Char, IsToken M → IsToken U → '?' ∉ U →
          r.file = (M ++ ' ' :: U) ++ rest →
          (rest = [] ∧ (M ++ ' ' :: U).length < BUFSIZ) ∨ (M ++ ' ' :: U).length = BUFSIZ - 1 →
          parse_request_method r
            = .ok (0, { r with file := rest, method := some M, query := some [' '],
                               uri := some U })) := by
  constructor
  · intro h
    unfold parse_request_method
    rw [h]
    rfl
  · intro M U rest hM hU hq hfile hcut
    apply parse_request_method_partial r M U rest hM hU hq
    rw [hfile]
    rcases hcut with ⟨hrest, hlen⟩ | hlen
    · subst hrest
      rw [List.append_nil]
      exact fgets_eof _ (partial_line_no_newline M U hM hU) (by simp) hlen
    · exact fgets_full _ rest (partial_line_no_newline M U hM hU) hlen

/-- C14 (witness): the empty stream, and the stream `GET /index.html` that ends
without a line feed. -/
theorem unterminated_request_line_witness :
    parse_request_method (accepted [] [] []) = .ok (-1, accepted [] [] [])
      ∧ IsToken "GET".toList ∧ IsToken "/index.html".toList
      ∧ parse_request_method (accepted [] [] "GET /index.html".toList)
          = .ok (0, { accepted [] [] "GET /index.html".toList with
              file := [], method := some "GET".toList, query := some [' '],
              uri := some "/index.html".toList }) :=
  ⟨(unterminated_request_line (accepted [] [] [])).1 rfl, by decide, by decide,
    (unterminated_request_line (accepted [] [] "GET /index.html".toList)).2
      "GET".toList "/index.html".toList [] (by decide) (by decide) (by decide) rfl
      (Or.inl ⟨rfl, by decide⟩)⟩

/-- C11 (failing input): with the two-rule table and the default `text/plain`, the
path `/srv/www/notes.zzz`, whose extension `zzz` no rule lists, gets the
Content-Type `image/png`, the type of the last line of the table; the path
`/srv/www/README`, which has no extension, makes `determine_mimetype` read
through the pointer `NULL + 1`. Paths whose extension a rule lists get the type
of that rule. -/
theorem unmatched_extension_takes_last_rule :
    two_rule_world.DefaultMimeType = "text/plain".toList
      ∧ extension "/srv/www/notes.zzz".toList = some "zzz".toList
      ∧ determine_mimetype two_rule_world "/srv/www/notes.zzz".toList
          = .ok (some "image/png".toList)
      ∧ (handle_file_request two_rule_world
            { parsed "GET".toList "/notes.zzz".toList [' '] [] with
              path := some "/srv/www/notes.zzz".toList }).map (fun x => (x.1, x.2.out))
          = .ok (Status.HTTP_STATUS_OK,
              "HTTP/1.0 200 OK\r\nContent-Type: image/png\r\n\r\n<p>hello</p>\n".toList)
      ∧ extension "/srv/www/README".toList = none
      ∧ determine_mimetype two_rule_world "/srv/www/README".toList
          = .error Fault.outOfBounds
      ∧ handle_file_request two_rule_world
            { parsed "GET".toList "/README".toList [' '] [] with
              path := some "/srv/www/README".toList }
          = .error Fault.outOfBounds
      ∧ determine_mimetype two_rule_world "/srv/www/index.htm".toList
          = .ok (some "text/html".toList)
      ∧ determine_mimetype two_rule_world "/srv/www/logo.png".toList
          = .ok (some "image/png".toList) := by
  refine ⟨rfl, by decide, rfl, rfl, by decide, rfl, rfl, rfl, rfl⟩

/-- C15 (failing input): when the first call of `accept` fails, `accept_request`
calls `free_request` on the request whose stream was never opened, and
`fclose(NULL)` is a fault: `single_server` does not return `EXIT_FAILURE` and
`forking_server` does not go on to the next accept (here a connection that would
be accepted next is never handled). The same holds when `getnameinfo` or `fdopen`
fails. `accept_request` never returns NULL, so `single_server` never returns. A
failed `fork` is handled as claimed: the request is freed and the loop goes on. -/
theorem accept_failure_faults (w : World) (env : Env) :
    accept_request Accept.accept_fails = .error Fault.nullDeref
      ∧ accept_request Accept.getnameinfo_fails = .error Fault.nullDeref
      ∧ accept_request (Accept.fdopen_fails [] []) = .error Fault.nullDeref
      ∧ single_server w env
          [Accept.accept_fails, Accept.connection [] [] "GET / HTTP/1.0\r\nHost: a\r\n\r\n".toList]
        = ([], Stop.fault Fault.nullDeref)
      ∧ forking_server w env
          [(Accept.accept_fails, 0),
            (Accept.connection [] [] "GET / HTTP/1.0\r\nHost: a\r\n\r\n".toList, 7)]
        = ([], Stop.fault Fault.nullDeref)
      ∧ (∀ (accepts : List Accept) (code : Int),
          (single_server w env accepts).2 ≠ Stop.returned code)
      ∧ forking_server w env
          [(Accept.connection [] [] "GET / HTTP/1.0\r\nHost: a\r\n\r\n".toList, -1)]
        = ([Event.free (accepted [] [] "GET / HTTP/1.0\r\nHost: a\r\n\r\n".toList)],
            Stop.accepting) := by
  refine ⟨rfl, rfl, rfl, rfl, rfl, fun accepts code => single_server_never_returns w accepts env code,
    ?_⟩
  exact forking_server_fork_failure w env [] [] _ (-1) [] (by decide)

end Spidey
